import Mathlib

/-!
Verification of the pairs-trading Signal & Backtest Engine.

Shallow embedding of the core components of the repository:
* `src/strategy/state.py`   — `TradingStateMachine` (crossing-sensitive FSM, persistence)
* `src/backtest/simulator.py` — `VectorizedBacktester` (vectorized signal derivation, P&L)
* `src/features/beta.py`    — `HedgeRatioCalculator` (rolling OLS beta)
* `src/features/cointegration.py` — `CointegrationTester` (cointegration gate, half-life)

Python floats are modelled as `ℚ`; NaN / missing values as `Option ℚ` with `none`
as the absent marker.  Timestamps are modelled as natural numbers; the external
`datetime.isoformat` / `pd.to_datetime` bijection between datetimes and their
ISO-8601 strings is modelled as the identity on these abstract timestamps.
External statistical routines from statsmodels (`coint`, `adfuller`) are not
code of this repository and are modelled as oracle parameters; the float
constant `np.log(2)` is likewise passed as a rational parameter `log2`.
-/

namespace PairsTrading

/-- Position states of the trading system (`PositionState` in `state.py`). -/
inductive PositionState where
  | NEUTRAL
  | LONG_SPREAD
  | SHORT_SPREAD
deriving DecidableEq, Repr

/-- Types of trading signals (`SignalType` in `state.py`). -/
inductive SignalType where
  | ENTER_LONG_SPREAD
  | ENTER_SHORT_SPREAD
  | EXIT_POSITION
  | STOP_LOSS
  | NO_ACTION
deriving DecidableEq, Repr

/-- Direction argument of `TradingStateMachine._is_crossing`. -/
inductive CrossDirection where
  | above
  | below
deriving DecidableEq, Repr

/-- Decimal rendering of a rational, used for the deterministic `reason` strings
(the Python code uses f-string formatting; only determinism matters here). -/
def fmtRat (q : ℚ) : String :=
  toString q.num ++ "/" ++ toString q.den

/-- Trading signal with metadata (`TradingSignal` dataclass in `state.py`). -/
structure TradingSignal where
  timestamp : ℕ
  signal_type : SignalType
  zscore : Option ℚ
  beta : ℚ
  spread : ℚ
  reason : String
  btc_price : ℚ
  eth_price : ℚ
  previous_state : PositionState
  new_state : PositionState
deriving DecidableEq, Repr

/-- The mutable fields and threshold configuration of `TradingStateMachine`.
The `state_file` handle is modelled separately by the storage protocols below. -/
structure TradingStateMachine where
  z_in : ℚ
  z_out : ℚ
  z_stop : ℚ
  current_state : PositionState
  entry_zscore : Option ℚ
  entry_timestamp : Option ℕ
  entry_beta : Option ℚ
  previous_zscore : Option ℚ
deriving DecidableEq, Repr

/-- Constructor `TradingStateMachine.__init__`: stores the thresholds and
initializes all mutable fields; the source performs no threshold validation. -/
def TradingStateMachine.init (z_in z_out z_stop : ℚ) : TradingStateMachine :=
  { z_in := z_in
    z_out := z_out
    z_stop := z_stop
    current_state := .NEUTRAL
    entry_zscore := none
    entry_timestamp := none
    entry_beta := none
    previous_zscore := none }

/-- Embedding of `TradingStateMachine._is_crossing`: threshold-crossing test.  Both inputs
are known to be non-NaN at every call site (the `pd.isna` guard in the source
is subsumed by the `Option` handling in `processTick`). -/
def isCrossing (previous current threshold : ℚ) (direction : CrossDirection) : Bool :=
  match direction with
  | .above => decide (previous ≤ threshold) && decide (current > threshold)
  | .below => decide (previous ≥ threshold) && decide (current < threshold)

/-- One input row for `process_tick`. -/
structure Tick where
  timestamp : ℕ
  zscore : Option ℚ
  beta : ℚ
  spread : ℚ
  btc_price : ℚ
  eth_price : ℚ
deriving DecidableEq, Repr

/-- Outcome of the per-state branch of `process_tick`: signal type, reason,
new state and the three entry-snapshot fields after the tick. -/
def tickBranch (m : TradingStateMachine) (timestamp : ℕ) (z beta : ℚ) :
    SignalType × String × PositionState × Option ℚ × Option ℕ × Option ℚ :=
  match m.current_state with
  | .NEUTRAL =>
    match m.previous_zscore with
    | none => (.NO_ACTION, "", m.current_state, m.entry_zscore, m.entry_timestamp, m.entry_beta)
    | some p =>
      if isCrossing p z (-m.z_in) .below then
        (.ENTER_LONG_SPREAD, "Z-score crossed below -" ++ fmtRat m.z_in,
          .LONG_SPREAD, some z, some timestamp, some beta)
      else if isCrossing p z m.z_in .above then
        (.ENTER_SHORT_SPREAD, "Z-score crossed above " ++ fmtRat m.z_in,
          .SHORT_SPREAD, some z, some timestamp, some beta)
      else
        (.NO_ACTION, "", m.current_state, m.entry_zscore, m.entry_timestamp, m.entry_beta)
  | .LONG_SPREAD =>
    if |z| > m.z_stop then
      (.STOP_LOSS, "Stop loss triggered (|z| > " ++ fmtRat m.z_stop ++ ")",
        .NEUTRAL, none, none, none)
    else if |z| < m.z_out then
      (.EXIT_POSITION, "Exit signal (|z| < " ++ fmtRat m.z_out ++ ")",
        .NEUTRAL, none, none, none)
    else
      (.NO_ACTION, "", m.current_state, m.entry_zscore, m.entry_timestamp, m.entry_beta)
  | .SHORT_SPREAD =>
    if |z| > m.z_stop then
      (.STOP_LOSS, "Stop loss triggered (|z| > " ++ fmtRat m.z_stop ++ ")",
        .NEUTRAL, none, none, none)
    else if |z| < m.z_out then
      (.EXIT_POSITION, "Exit signal (|z| < " ++ fmtRat m.z_out ++ ")",
        .NEUTRAL, none, none, none)
    else
      (.NO_ACTION, "", m.current_state, m.entry_zscore, m.entry_timestamp, m.entry_beta)

/-- Embedding of `TradingStateMachine.process_tick`: produces the updated machine and the
emitted `TradingSignal`.  On an undefined z-score the state and
`previous_zscore` are left unchanged; otherwise the per-state branch runs and
`previous_zscore` is overwritten with the current z-score. -/
def processTick (m : TradingStateMachine) (t : Tick) : TradingStateMachine × TradingSignal :=
  match t.zscore with
  | none =>
    (m,
      { timestamp := t.timestamp
        signal_type := .NO_ACTION
        zscore := none
        beta := t.beta
        spread := t.spread
        reason := "Invalid z-score"
        btc_price := t.btc_price
        eth_price := t.eth_price
        previous_state := m.current_state
        new_state := m.current_state })
  | some z =>
    let r := tickBranch m t.timestamp z t.beta
    let sig : TradingSignal :=
      { timestamp := t.timestamp
        signal_type := r.1
        zscore := some z
        beta := t.beta
        spread := t.spread
        reason := r.2.1
        btc_price := t.btc_price
        eth_price := t.eth_price
        previous_state := m.current_state
        new_state := r.2.2.1 }
    let m' : TradingStateMachine :=
      { m with
        current_state := r.2.2.1
        entry_zscore := r.2.2.2.1
        entry_timestamp := r.2.2.2.2.1
        entry_beta := r.2.2.2.2.2
        previous_zscore := some z }
    (m', sig)

/-- Processing of a whole series on one in-memory machine
(`process_dataframe`, without the NoAction filtering of the returned list). -/
def runMachine (m : TradingStateMachine) : List Tick → List TradingSignal × TradingStateMachine
  | [] => ([], m)
  | t :: ts =>
    let r := processTick m t
    let rest := runMachine r.1 ts
    (r.2 :: rest.1, rest.2)

/-- Signal sequence from processing a whole tick series in one call on a fresh
in-memory machine. -/
def runInMemory (z_in z_out z_stop : ℚ) (ticks : List Tick) : List TradingSignal :=
  (runMachine (TradingStateMachine.init z_in z_out z_stop) ticks).1

/-- Enum string of a `PositionState` (`PositionState.value` in the source). -/
def PositionState.value : PositionState → String
  | .NEUTRAL => "neutral"
  | .LONG_SPREAD => "long_spread"
  | .SHORT_SPREAD => "short_spread"

/-- Inverse of `PositionState.value`; `none` models the `ValueError` raised by
`PositionState(...)` on an unknown string. -/
def positionStateOfValue (s : String) : Option PositionState :=
  if s = "neutral" then some .NEUTRAL
  else if s = "long_spread" then some .LONG_SPREAD
  else if s = "short_spread" then some .SHORT_SPREAD
  else none

/-- The persisted snapshot written by `save_state`: a JSON object with the five
keys below.  The entry timestamp is persisted as its ISO-8601 string; that
external string encoding is a bijection and is modelled by storing the abstract
timestamp directly. -/
structure StateData where
  current_state : String
  entry_zscore : Option ℚ
  entry_timestamp : Option ℕ
  entry_beta : Option ℚ
  previous_zscore : Option ℚ
deriving DecidableEq, Repr

/-- Embedding of `TradingStateMachine.save_state`: the snapshot serialized to the state file. -/
def saveState (m : TradingStateMachine) : StateData :=
  { current_state := m.current_state.value
    entry_zscore := m.entry_zscore
    entry_timestamp := m.entry_timestamp
    entry_beta := m.entry_beta
    previous_zscore := m.previous_zscore }

/-- Embedding of `TradingStateMachine.load_state`: fields of `m` are overwritten from the
snapshot; if `PositionState(...)` raises on a malformed state string the
exception is caught and the machine keeps its prior (default) fields. -/
def loadState (m : TradingStateMachine) (d : StateData) : TradingStateMachine :=
  match positionStateOfValue d.current_state with
  | none => m
  | some st =>
    { m with
      current_state := st
      entry_zscore := d.entry_zscore
      entry_timestamp := d.entry_timestamp
      entry_beta := d.entry_beta
      previous_zscore := d.previous_zscore }

/-- Restart protocol of the source: before each tick a fresh machine is
constructed and, when a persisted snapshot exists, `load_state` runs; after the
tick the snapshot is written only when the emitted signal is not `NO_ACTION`
(the write policy inside `process_tick`). -/
def runWithRestart (z_in z_out z_stop : ℚ) : Option StateData → List Tick → List TradingSignal
  | _, [] => []
  | storage, t :: ts =>
    let m0 := TradingStateMachine.init z_in z_out z_stop
    let m1 := match storage with
      | some d => loadState m0 d
      | none => m0
    let r := processTick m1 t
    let storage' := if r.2.signal_type ≠ SignalType.NO_ACTION then some (saveState r.1) else storage
    r.2 :: runWithRestart z_in z_out z_stop storage' ts

/-- Restart protocol in which `save_state` is additionally invoked after every
tick, so the snapshot is written even on `NO_ACTION` ticks. -/
def runWithRestartAlwaysSave (z_in z_out z_stop : ℚ) :
    Option StateData → List Tick → List TradingSignal
  | _, [] => []
  | storage, t :: ts =>
    let m0 := TradingStateMachine.init z_in z_out z_stop
    let m1 := match storage with
      | some d => loadState m0 d
      | none => m0
    let r := processTick m1 t
    r.2 :: runWithRestartAlwaysSave z_in z_out z_stop (some (saveState r.1)) ts

/-- Integer position code used by the vectorized backtester
(`1` long spread, `-1` short spread, `0` flat). -/
def posOfState : PositionState → Int
  | .NEUTRAL => 0
  | .LONG_SPREAD => 1
  | .SHORT_SPREAD => -1

/-- The `signal` column of `_generate_signals_vectorized` at row `i`:
crossing masks computed against the immediately preceding row's z-score
(`z.shift(1)`); pandas comparisons against NaN are false.  The short mask is
assigned after the long mask, so a row matching both gets `-1`. -/
def vecSignal (z : List (Option ℚ)) (z_in : ℚ) (i : ℕ) : Int :=
  let zPrev : Option ℚ := if i = 0 then none else z.getD (i - 1) none
  let zCur : Option ℚ := z.getD i none
  let longEntry : Bool :=
    match zPrev, zCur with
    | some p, some c => decide (p ≥ -z_in) && decide (c < -z_in)
    | _, _ => false
  let shortEntry : Bool :=
    match zPrev, zCur with
    | some p, some c => decide (p ≤ z_in) && decide (c > z_in)
    | _, _ => false
  if shortEntry then -1 else if longEntry then 1 else 0

/-- Loop body of the forward fill in `_generate_signals_vectorized`: on a row
with a defined z-score, a nonzero `signal` overwrites the position; otherwise,
if a position is open and `|z| < z_out` or `|z| > z_stop` the position
flattens; rows with undefined z-score carry the position unchanged. -/
def stepPos (z : List (Option ℚ)) (z_in z_out z_stop : ℚ) (i : ℕ) (pos : Int)
    (zi : Option ℚ) : Int :=
  match zi with
  | none => pos
  | some zv =>
    let s := vecSignal z z_in i
    if s ≠ 0 then s
    else if pos ≠ 0 ∧ (|zv| < z_out ∨ |zv| > z_stop) then 0
    else pos

/-- Forward-fill loop of `_generate_signals_vectorized`. -/
def forwardFill (z : List (Option ℚ)) (z_in z_out z_stop : ℚ) :
    ℕ → Int → List (Option ℚ) → List Int
  | _, _, [] => []
  | i, pos, zi :: rest =>
    let pos' := stepPos z z_in z_out z_stop i pos zi
    pos' :: forwardFill z z_in z_out z_stop (i + 1) pos' rest

/-- The `position` column produced by `_generate_signals_vectorized`. -/
def generateSignalsVectorized (z : List (Option ℚ)) (z_in z_out z_stop : ℚ) : List Int :=
  forwardFill z z_in z_out z_stop 0 0 z

/-- Tick list with the given z-scores and all other inputs zero (the other
columns do not influence signal types or positions). -/
def mkTicks (zs : List (Option ℚ)) : List Tick :=
  zs.map fun z => { timestamp := 0, zscore := z, beta := 0, spread := 0, btc_price := 0, eth_price := 0 }

/-- A tick with a defined z-score and all other inputs zero. -/
def tickZ (b : ℚ) : Tick :=
  { timestamp := 0, zscore := some b, beta := 0, spread := 0, btc_price := 0, eth_price := 0 }

/-- Tick list with the given (all defined) z-scores. -/
def ticksOf (zs : List ℚ) : List Tick :=
  mkTicks (zs.map some)

/-- State corresponding to an integer position code. -/
def stateOfPos (p : Int) : PositionState :=
  if p = 1 then .LONG_SPREAD else if p = -1 then .SHORT_SPREAD else .NEUTRAL

/-- Per-bar position P&L of one leg in `_calculate_pnl`:
`units.shift(1) * price * price.pct_change()`, with the bar-0 NaN filled to 0. -/
def legPnl (units prices : List ℚ) (i : ℕ) : ℚ :=
  if i = 0 then 0
  else units.getD (i - 1) 0 * prices.getD i 0 * (prices.getD i 0 / prices.getD (i - 1) 0 - 1)

/-- The per-bar change in units of one leg: `units.diff().fillna(units)`. -/
def unitsChange (units : List ℚ) (i : ℕ) : ℚ :=
  if i = 0 then units.getD 0 0 else units.getD i 0 - units.getD (i - 1) 0

/-- Per-bar trading cost of one leg:
`abs(units_change * price) * (total_cost_bps / 10000)`. -/
def legTradeCost (units prices : List ℚ) (total_cost_bps : ℚ) (i : ℕ) : ℚ :=
  |unitsChange units i * prices.getD i 0| * (total_cost_bps / 10000)

/-- The `trade_costs` column (negated sum of both legs' costs). -/
def tradeCosts (eth_units btc_units eth_price btc_price : List ℚ) (fee_bps slippage_bps : ℚ)
    (i : ℕ) : ℚ :=
  -(legTradeCost eth_units eth_price (fee_bps + slippage_bps) i +
    legTradeCost btc_units btc_price (fee_bps + slippage_bps) i)

/-- The `total_pnl` column of `_calculate_pnl`. -/
def totalPnl (eth_units btc_units eth_price btc_price : List ℚ) (fee_bps slippage_bps : ℚ)
    (i : ℕ) : ℚ :=
  legPnl eth_units eth_price i + legPnl btc_units btc_price i +
    tradeCosts eth_units btc_units eth_price btc_price fee_bps slippage_bps i

/-- The equity curve: initial capital plus the running sum of `total_pnl`. -/
def equityCurve (initial_capital : ℚ) (eth_units btc_units eth_price btc_price : List ℚ)
    (fee_bps slippage_bps : ℚ) (i : ℕ) : ℚ :=
  initial_capital +
    ((List.range (i + 1)).map
      (totalPnl eth_units btc_units eth_price btc_price fee_bps slippage_bps)).sum

/-- Sample mean `np.mean` of a window (division is rational; windows passed in
are nonempty in every use below). -/
def listMean (l : List ℚ) : ℚ :=
  l.sum / l.length

/-- The trailing window `v[i - window + 1 : i + 1]` of length `window` ending
at index `i`. -/
def trailingWindow (v : List (Option ℚ)) (window i : ℕ) : List (Option ℚ) :=
  (v.drop (i + 1 - window)).take window

/-- Sample covariance numerator of `_calculate_rolling_beta_numba` divided by
`window - 1`:  `sum((x - x_mean) * (y - y_mean)) / (window - 1)`. -/
def windowCov (xs ys : List ℚ) (window : ℕ) : ℚ :=
  let xm := listMean xs
  let ym := listMean ys
  ((xs.zip ys).map fun p => (p.1 - xm) * (p.2 - ym)).sum / ((window : ℚ) - 1)

/-- Sample variance of `_calculate_rolling_beta_numba`:
`sum((x - x_mean) ** 2) / (window - 1)`. -/
def windowVar (xs : List ℚ) (window : ℕ) : ℚ :=
  let xm := listMean xs
  (xs.map fun a => (a - xm) ^ 2).sum / ((window : ℚ) - 1)

/-- The variance guard constant `1e-10` of the source, as an exact rational. -/
def varEps : ℚ :=
  1 / 10000000000

/-- Entry `i` of `_calculate_rolling_beta_numba`: NaN before index
`window - 1`; NaN when the trailing window contains a NaN; NaN when
`var_x > 1e-10` fails (note the strict inequality); otherwise `cov/var`. -/
def rollingBetaEntry (x y : List (Option ℚ)) (window i : ℕ) : Option ℚ :=
  if i + 1 < window then none
  else if (trailingWindow x window i).any (·.isNone) ||
      (trailingWindow y window i).any (·.isNone) then none
  else if windowVar ((trailingWindow x window i).filterMap id) window > varEps then
    some (windowCov ((trailingWindow x window i).filterMap id)
        ((trailingWindow y window i).filterMap id) window /
      windowVar ((trailingWindow x window i).filterMap id) window)
  else none

/-- The full output array of `_calculate_rolling_beta_numba`. -/
def rollingBetaKernel (x y : List (Option ℚ)) (window : ℕ) : List (Option ℚ) :=
  (List.range x.length).map (rollingBetaEntry x y window)

/-- Row alignment of `rolling_beta`: `pd.DataFrame({...}).dropna()` keeps the
rows where both series are defined. -/
def alignedRows (x y : List (Option ℚ)) : List (ℚ × ℚ) :=
  (x.zip y).filterMap fun p =>
    match p.1, p.2 with
    | some a, some b => some (a, b)
    | _, _ => none

/-- Embedding of `HedgeRatioCalculator.rolling_beta` with default `min_periods`: empty
output when fewer than `window` aligned rows remain, otherwise the numba
kernel applied to the aligned columns. -/
def rolling_beta (x y : List (Option ℚ)) (window : ℕ) : List (Option ℚ) :=
  let aligned := alignedRows x y
  if aligned.length < window then []
  else rollingBetaKernel (aligned.map (some ·.1)) (aligned.map (some ·.2)) window

/-- Closed-form simple-regression slope over paired observations:
`Cov(x, y) / Var(x)` (any common divisor cancels). -/
def olsSlope (xs ys : List ℚ) : ℚ :=
  let xm := listMean xs
  let ym := listMean ys
  ((xs.zip ys).map fun p => (p.1 - xm) * (p.2 - ym)).sum /
    (xs.map fun a => (a - xm) ^ 2).sum

/-- Configuration of `CointegrationTester.__init__`. -/
structure CointCfg where
  adf_threshold : ℚ
  min_half_life : ℚ
  max_half_life : ℚ
  lookback_window : ℕ
deriving DecidableEq, Repr

/-- External statsmodels routines, modelled as oracles: `coint` yields the
Engle-Granger p-value (`coint_result[1]`), `adfuller` yields the pair
(statistic, p-value); an `error` models a raised exception. -/
structure StatsOracles where
  coint : List ℚ → List ℚ → Except String ℚ
  adfuller : List ℚ → Except String (ℚ × ℚ)
  hurst : List ℚ → Option ℚ

/-- Slope of the no-intercept OLS in `_calculate_half_life`:
`params[0] = sum(X * d) / sum(X ** 2)` for a single regressor without constant. -/
def noInterceptSlope (xs ds : List ℚ) : ℚ :=
  ((xs.zip ds).map fun p => p.1 * p.2).sum / (xs.map fun a => a ^ 2).sum

/-- The demeaned lagged spread regressor `X = spread_lag[1:] - mean(spread)`
of `_calculate_half_life`. -/
def halfLifeRegressor (spread : List ℚ) : List ℚ :=
  (spread.dropLast).map fun s => s - listMean spread

/-- The first differences `spread_diff[1:] = spread[1:] - spread[:-1]` of
`_calculate_half_life`. -/
def halfLifeDiffs (spread : List ℚ) : List ℚ :=
  ((spread.dropLast).zip (spread.drop 1)).map fun p => p.2 - p.1

/-- The mean-reversion speed `theta = -params[0]` of `_calculate_half_life`. -/
def thetaOf (spread : List ℚ) : ℚ :=
  -(noInterceptSlope (halfLifeRegressor spread) (halfLifeDiffs spread))

/-- Embedding of `CointegrationTester._calculate_half_life`: `log(2) / theta` when
`theta > 0`, undefined (`None`) otherwise.  `log2` is the float constant
`np.log(2)` passed as a rational parameter. -/
def calculateHalfLife (log2 : ℚ) (spread : List ℚ) : Option ℚ :=
  let theta := thetaOf spread
  if theta ≤ 0 then none else some (log2 / theta)

/-- Result dictionary of `test_cointegration`, with one `Option` field per key
that appears only in some of the returned dictionaries. -/
structure CointResult where
  is_cointegrated : Bool
  reason : String
  p_value : Option ℚ
  adf_pvalue : Option ℚ
  adf_statistic : Option ℚ
  eg_pvalue : Option ℚ
  half_life : Option ℚ
  hedge_ratio : Option ℚ
  intercept : Option ℚ
  hurst : Option ℚ
deriving DecidableEq, Repr

/-- The failure dictionary returned by the early-return and `except` branches
of `test_cointegration`: not cointegrated, explicit reason, `p_value = 1.0`. -/
def failureResult (reason : String) : CointResult :=
  { is_cointegrated := false
    reason := reason
    p_value := some 1
    adf_pvalue := none
    adf_statistic := none
    eg_pvalue := none
    half_life := none
    hedge_ratio := none
    intercept := none
    hurst := none }

/-- Embedding of `_get_rejection_reason`: collects the failing conditions into one string. -/
def getRejectionReason (cfg : CointCfg) (adf_pvalue eg_pvalue : ℚ) (half_life : Option ℚ) :
    String :=
  let r1 : List String :=
    if adf_pvalue ≥ cfg.adf_threshold then
      ["ADF p-value too high (" ++ fmtRat adf_pvalue ++ " >= " ++ fmtRat cfg.adf_threshold ++ ")"]
    else []
  let r2 : List String :=
    if eg_pvalue ≥ cfg.adf_threshold then
      ["Engle-Granger p-value too high (" ++ fmtRat eg_pvalue ++ " >= " ++
        fmtRat cfg.adf_threshold ++ ")"]
    else []
  let r3 : List String :=
    match half_life with
    | none => ["Could not calculate half-life"]
    | some h =>
      if h < cfg.min_half_life then
        ["Half-life too short (" ++ fmtRat h ++ " < " ++ fmtRat cfg.min_half_life ++ ")"]
      else if h > cfg.max_half_life then
        ["Half-life too long (" ++ fmtRat h ++ " > " ++ fmtRat cfg.max_half_life ++ ")"]
      else []
  let reasons := r1 ++ r2 ++ r3
  if reasons.isEmpty then "Unknown" else String.intercalate "; " reasons

/-- The aligned non-NaN observations used by `test_cointegration` after taking
the trailing `lookback_window` rows and masking NaNs. -/
def cleanedPairs (cfg : CointCfg) (price1 price2 : List (Option ℚ)) : List (ℚ × ℚ) :=
  let p1 := price1.drop (price1.length - cfg.lookback_window)
  let p2 := price2.drop (price2.length - cfg.lookback_window)
  alignedRows p1 p2

/-- The hedge ratio computed by `test_cointegration`: slope of
`OLS(p1, [1, p2])` on the cleaned observations. -/
def cointHedgeRatio (cfg : CointCfg) (price1 price2 : List (Option ℚ)) : ℚ :=
  let pairs := cleanedPairs cfg price1 price2
  olsSlope (pairs.map (·.2)) (pairs.map (·.1))

/-- The regression residual spread `p1 - hedge_ratio * p2` of
`test_cointegration`. -/
def residualSpread (cfg : CointCfg) (price1 price2 : List (Option ℚ)) : List ℚ :=
  let pairs := cleanedPairs cfg price1 price2
  pairs.map fun p => p.1 - cointHedgeRatio cfg price1 price2 * p.2

/-- Embedding of `CointegrationTester.test_cointegration`.  Every failure path (length
guards, oracle exceptions) returns a `failureResult`; no exception escapes.
The OLS hedge ratio and intercept are the closed-form estimates of
`OLS(p1, [1, p2])`. -/
def testCointegration (cfg : CointCfg) (O : StatsOracles) (log2 : ℚ)
    (price1 price2 : List (Option ℚ)) : CointResult :=
  if price1.length < cfg.lookback_window ∨ price2.length < cfg.lookback_window then
    failureResult "Insufficient data"
  else
    let pairs := cleanedPairs cfg price1 price2
    let p1 := pairs.map (·.1)
    let p2 := pairs.map (·.2)
    if p1.length < 100 then failureResult "Too many NaN values"
    else
      match O.coint p1 p2 with
      | .error e => failureResult ("Test failed: " ++ e)
      | .ok eg_pvalue =>
        let hedge_ratio := cointHedgeRatio cfg price1 price2
        let intercept := listMean p1 - hedge_ratio * listMean p2
        let spread := residualSpread cfg price1 price2
        match O.adfuller spread with
        | .error e => failureResult ("Test failed: " ++ e)
        | .ok (adf_statistic, adf_pvalue) =>
          let half_life := calculateHalfLife log2 spread
          let hurst := O.hurst spread
          let is_cointegrated :=
            decide (adf_pvalue < cfg.adf_threshold) &&
            decide (eg_pvalue < cfg.adf_threshold) &&
            (match half_life with
              | some h => decide (cfg.min_half_life ≤ h) && decide (h ≤ cfg.max_half_life)
              | none => false)
          let reason := getRejectionReason cfg adf_pvalue eg_pvalue half_life
          { is_cointegrated := is_cointegrated
            reason := if is_cointegrated then "Passed all tests" else reason
            p_value := none
            adf_pvalue := some adf_pvalue
            adf_statistic := some adf_statistic
            eg_pvalue := some eg_pvalue
            half_life := half_life
            hedge_ratio := some hedge_ratio
            intercept := some intercept
            hurst := hurst }

/-- Sample configuration used by concrete test inputs below. -/
def cfgW : CointCfg :=
  { adf_threshold := 1/20, min_half_life := 1, max_half_life := 30, lookback_window := 100 }

/-- Sample oracles returning fixed successful statistics. -/
def oracleW : StatsOracles :=
  { coint := fun _ _ => .ok (1/100)
    adfuller := fun _ => .ok (0, 1/100)
    hurst := fun _ => none }

/-- Sample constant price series (100 defined observations). -/
def priceW1 : List (Option ℚ) :=
  List.replicate 100 (some 1)

/-- Second sample constant price series. -/
def priceW2 : List (Option ℚ) :=
  List.replicate 100 (some 2)

/-! ### Helper lemmas -/

/-- Loading a snapshot written by `save_state` into a freshly constructed
machine with the same thresholds restores the machine exactly. -/
theorem loadState_saveState (m : TradingStateMachine) :
    loadState (TradingStateMachine.init m.z_in m.z_out m.z_stop) (saveState m) = m := by
  cases m with
  | mk zin zout zstop cs ez et eb pz =>
    cases cs <;> rfl

/-- The function `processTick` never changes the configured thresholds. -/
theorem processTick_thresholds (m : TradingStateMachine) (t : Tick) :
    ((processTick m t).1.z_in = m.z_in ∧ (processTick m t).1.z_out = m.z_out) ∧
      (processTick m t).1.z_stop = m.z_stop := by
  cases h : t.zscore <;> simp [processTick, h]

/-! ### C8: snapshot round-trip -/

/-- C8: for every machine state (hence every reachable one), serializing the
persisted snapshot with `save_state` and deserializing it with `load_state`
into a fresh machine reproduces exactly the same
`{current_state, entry_zscore, entry_timestamp, entry_beta, previous_zscore}`,
including absent optional fields. -/
theorem state_snapshot_roundtrip (m : TradingStateMachine) :
    (loadState (TradingStateMachine.init m.z_in m.z_out m.z_stop) (saveState m)).current_state
        = m.current_state ∧
    (loadState (TradingStateMachine.init m.z_in m.z_out m.z_stop) (saveState m)).entry_zscore
        = m.entry_zscore ∧
    (loadState (TradingStateMachine.init m.z_in m.z_out m.z_stop) (saveState m)).entry_timestamp
        = m.entry_timestamp ∧
    (loadState (TradingStateMachine.init m.z_in m.z_out m.z_stop) (saveState m)).entry_beta
        = m.entry_beta ∧
    (loadState (TradingStateMachine.init m.z_in m.z_out m.z_stop) (saveState m)).previous_zscore
        = m.previous_zscore := by
  rw [loadState_saveState]
  exact ⟨rfl, rfl, rfl, rfl, rfl⟩

/-! ### C9: constructor performs no threshold validation -/

/-- C9 counterexample: constructing the state machine with `z_out = z_in`
(so `z_out ≥ z_in`) does not fail: the constructor returns an instance with
the invalid thresholds stored verbatim, refuting the claim that construction
raises a configuration error and produces no instance. -/
theorem init_accepts_invalid_thresholds :
    (2 : ℚ) ≤ 2 ∧
      TradingStateMachine.init 2 2 (7/2) =
        { z_in := 2, z_out := 2, z_stop := 7/2, current_state := .NEUTRAL,
          entry_zscore := none, entry_timestamp := none, entry_beta := none,
          previous_zscore := none } :=
  ⟨le_refl 2, rfl⟩

/-- C9 amended: the constructor performs no threshold validation at all —
for every threshold configuration, including `z_out ≥ z_in`, construction
succeeds and produces the neutral machine with the thresholds stored verbatim. -/
theorem init_never_validates (z_in z_out z_stop : ℚ) :
    TradingStateMachine.init z_in z_out z_stop =
      { z_in := z_in, z_out := z_out, z_stop := z_stop, current_state := .NEUTRAL,
        entry_zscore := none, entry_timestamp := none, entry_beta := none,
        previous_zscore := none } :=
  rfl

/-- Recursive characterization of the forward-fill output: every element is
the loop body applied to the previous output element (the accumulator at the
head). -/
theorem forwardFill_getD (z : List (Option ℚ)) (a b c : ℚ) :
    ∀ (l : List (Option ℚ)) (i : ℕ) (p : Int) (j : ℕ), j < l.length →
      (forwardFill z a b c i p l).getD j 0 =
        stepPos z a b c (i + j)
          (if j = 0 then p else (forwardFill z a b c i p l).getD (j - 1) 0)
          (l.getD j none) := by
  intro l
  induction l with
  | nil =>
    intro i p j hj
    simp at hj
  | cons zi rest ih =>
    intro i p j hj
    match j with
    | 0 =>
      simp [forwardFill]
    | j' + 1 =>
      have hj' : j' < rest.length := by simpa using hj
      have step := ih (i + 1) (stepPos z a b c i p zi) j' hj'
      have hcons :
          (forwardFill z a b c i p (zi :: rest)).getD (j' + 1) 0 =
            (forwardFill z a b c (i + 1) (stepPos z a b c i p zi) rest).getD j' 0 := by
        simp [forwardFill]
      have hprev :
          (if j' = 0 then stepPos z a b c i p zi
            else (forwardFill z a b c (i + 1) (stepPos z a b c i p zi) rest).getD (j' - 1) 0) =
          (forwardFill z a b c i p (zi :: rest)).getD (j' + 1 - 1) 0 := by
        match j' with
        | 0 => simp [forwardFill]
        | k + 1 => simp [forwardFill]
      rw [hcons, step, hprev]
      have harith : i + 1 + j' = i + (j' + 1) := by omega
      rw [harith]
      simp [forwardFill]

/-! ### C10: undefined z-score bars carry the position -/

/-- C10: in the vectorized signal derivation, every bar whose z-score is
undefined carries the previous bar's position unchanged (the position before
the first bar being flat): no entry, exit or stop-loss is applied on an
undefined-z-score bar. -/
theorem nan_bar_carries_position (z : List (Option ℚ)) (z_in z_out z_stop : ℚ) (i : ℕ)
    (hi : i < z.length) (hz : z.getD i none = none) :
    (generateSignalsVectorized z z_in z_out z_stop).getD i 0 =
      if i = 0 then 0 else (generateSignalsVectorized z z_in z_out z_stop).getD (i - 1) 0 := by
  have h := forwardFill_getD z z_in z_out z_stop z 0 0 i hi
  rw [generateSignalsVectorized, h, hz]
  simp [stepPos]

/-- C10 witness: on `[1, 1.9, 2.1, NaN]` with thresholds `(2, 0.5, 3.5)` the
short position entered at index 2 is carried unchanged through the NaN bar at
index 3. -/
theorem nan_bar_carries_position_witness :
    (3 : ℕ) < ([some 1, some (19/10), some (21/10), none] : List (Option ℚ)).length ∧
    ([some 1, some (19/10), some (21/10), none] : List (Option ℚ)).getD 3 none = none ∧
    (generateSignalsVectorized [some 1, some (19/10), some (21/10), none] 2 (1/2) (7/2)).getD 3 0 =
      if (3 : ℕ) = 0 then 0
      else (generateSignalsVectorized [some 1, some (19/10), some (21/10), none] 2 (1/2) (7/2)).getD (3 - 1) 0 :=
  ⟨by decide, by decide,
    nan_bar_carries_position [some 1, some (19/10), some (21/10), none] 2 (1/2) (7/2) 3
      (by decide) (by decide)⟩

/-! ### C2: next-bar execution in the P&L calculation -/

/-- C2: in `_calculate_pnl` the per-bar position P&L at bar `i` is the leg
units held at bar `i-1` applied to bar `i`'s price return; a position entered
at bar `i` (flat at `i-1`) contributes zero position P&L at bar `i`, leaving
only the transaction cost, and first accrues price P&L at bar `i+1`, which is
nonzero under a strictly monotonic price move. -/
theorem next_bar_execution (eth_units btc_units eth_price btc_price : List ℚ)
    (fee_bps slippage_bps : ℚ) (i : ℕ) (hi : 1 ≤ i) :
    legPnl eth_units eth_price i =
        eth_units.getD (i - 1) 0 * eth_price.getD i 0 *
          (eth_price.getD i 0 / eth_price.getD (i - 1) 0 - 1) ∧
    (eth_units.getD (i - 1) 0 = 0 → btc_units.getD (i - 1) 0 = 0 →
        totalPnl eth_units btc_units eth_price btc_price fee_bps slippage_bps i =
          tradeCosts eth_units btc_units eth_price btc_price fee_bps slippage_bps i) ∧
    legPnl eth_units eth_price (i + 1) =
        eth_units.getD i 0 * eth_price.getD (i + 1) 0 *
          (eth_price.getD (i + 1) 0 / eth_price.getD i 0 - 1) ∧
    (eth_units.getD i 0 ≠ 0 → 0 < eth_price.getD i 0 →
        eth_price.getD i 0 < eth_price.getD (i + 1) 0 →
        legPnl eth_units eth_price (i + 1) ≠ 0) := by
  have hne : i ≠ 0 := by omega
  refine ⟨by simp [legPnl, hne], ?_, by simp [legPnl], ?_⟩
  · intro h1 h2
    simp only [totalPnl, legPnl, if_neg hne]
    rw [h1, h2]
    ring
  · intro hu hp hlt
    have hstep : legPnl eth_units eth_price (i + 1) =
        eth_units.getD i 0 * eth_price.getD (i + 1) 0 *
          (eth_price.getD (i + 1) 0 / eth_price.getD i 0 - 1) := by
      simp [legPnl]
    rw [hstep]
    have hpn : eth_price.getD (i + 1) 0 ≠ 0 := (hp.trans hlt).ne'
    have hratio : (1 : ℚ) < eth_price.getD (i + 1) 0 / eth_price.getD i 0 :=
      (one_lt_div hp).mpr hlt
    exact mul_ne_zero (mul_ne_zero hu hpn) (sub_ne_zero.mpr hratio.ne')

/-- C2 witness: entering two ETH units at bar 1 on prices `[10, 20, 30]`
yields zero position P&L at bar 1 and nonzero position P&L at bar 2. -/
theorem next_bar_execution_witness :
    (1 : ℕ) ≤ 1 ∧
    (([0, 2, 2] : List ℚ).getD 0 0 = 0 → ([0, 1, 1] : List ℚ).getD 0 0 = 0 →
        totalPnl [0, 2, 2] [0, 1, 1] [10, 20, 30] [5, 5, 5] 10 5 1 =
          tradeCosts [0, 2, 2] [0, 1, 1] [10, 20, 30] [5, 5, 5] 10 5 1) ∧
    (([0, 2, 2] : List ℚ).getD 1 0 ≠ 0 → (0 : ℚ) < ([10, 20, 30] : List ℚ).getD 1 0 →
        ([10, 20, 30] : List ℚ).getD 1 0 < ([10, 20, 30] : List ℚ).getD 2 0 →
        legPnl [0, 2, 2] [10, 20, 30] 2 ≠ 0) :=
  ⟨le_refl 1,
    (next_bar_execution [0, 2, 2] [0, 1, 1] [10, 20, 30] [5, 5, 5] 10 5 1 (le_refl 1)).2.1,
    (next_bar_execution [0, 2, 2] [0, 1, 1] [10, 20, 30] [5, 5, 5] 10 5 1 (le_refl 1)).2.2.2⟩

/-- Cancellation of a common divisor in a ratio of two divisions. -/
theorem div_div_cancel_common (a b c : ℚ) (hc : c ≠ 0) : a / c / (b / c) = a / b := by
  rcases eq_or_ne b 0 with hb | hb
  · simp [hb]
  · field_simp

/-! ### C7: rolling beta — corrected at the variance boundary -/

/-- C7 counterexample: a full window of defined observations whose sample
variance is exactly `1e-10` (so `Var(x) ≥ 1e-10` holds as the claim requires)
produces the absent marker, because the source guard is the strict
`var_x > 1e-10`. -/
theorem rolling_beta_var_boundary :
    (trailingWindow [some 0, some (1/100000), some (2/100000)] 3 2).all (·.isSome) = true ∧
    windowVar ((trailingWindow [some 0, some (1/100000), some (2/100000)] 3 2).filterMap id) 3
      = varEps ∧
    rollingBetaEntry [some 0, some (1/100000), some (2/100000)] [some 0, some 1, some 2] 3 2
      = none := by
  refine ⟨by decide, ?_, ?_⟩
  · norm_num [trailingWindow, windowVar, listMean, varEps, List.filterMap_cons]
  · norm_num [rollingBetaEntry, trailingWindow, windowVar, windowCov, listMean, varEps,
      List.filterMap_cons]

/-- C7 amended: the first `window - 1` outputs are absent; on a full window of
defined observations the output is `Cov(x,y)/Var(x)` (divisor `window − 1`,
equal to the closed-form OLS slope) whenever `Var(x) > 1e-10` (strictly, not
`≥` as claimed); and the output is absent whenever the window contains a
missing observation or `Var(x) ≤ 1e-10`. -/
theorem rolling_beta_spec (x y : List (Option ℚ)) (w i : ℕ) :
    (i + 1 < w → rollingBetaEntry x y w i = none) ∧
    (∀ j, j + 1 < w → (rolling_beta x y w).getD j none = none) ∧
    (¬ i + 1 < w →
      (∀ o ∈ trailingWindow x w i, o.isSome) → (∀ o ∈ trailingWindow y w i, o.isSome) →
      varEps < windowVar ((trailingWindow x w i).filterMap id) w →
      rollingBetaEntry x y w i =
        some (windowCov ((trailingWindow x w i).filterMap id)
            ((trailingWindow y w i).filterMap id) w /
          windowVar ((trailingWindow x w i).filterMap id) w)) ∧
    (¬ i + 1 < w →
      ((∃ o ∈ trailingWindow x w i, o.isNone) ∨ (∃ o ∈ trailingWindow y w i, o.isNone) ∨
        windowVar ((trailingWindow x w i).filterMap id) w ≤ varEps) →
      rollingBetaEntry x y w i = none) ∧
    (∀ xs ys : List ℚ, 2 ≤ w → windowCov xs ys w / windowVar xs w = olsSlope xs ys) := by
  refine ⟨?_, ?_, ?_, ?_, ?_⟩
  · intro hlt
    simp [rollingBetaEntry, hlt]
  · intro j hj
    rw [rolling_beta]
    split
    · simp
    · rw [rollingBetaKernel, List.getD_eq_getElem?_getD, List.getElem?_map]
      rcases Nat.lt_or_ge j (alignedRows x y).length with hjl | hjl
      · rw [List.getElem?_range (by simpa using hjl)]
        simp [rollingBetaEntry, hj]
      · rw [List.getElem?_eq_none (by simpa using hjl)]
        rfl
  · intro hge hx hy hvar
    have hxany : (trailingWindow x w i).any (·.isNone) = false := by
      rw [List.any_eq_false]
      intro o ho
      cases o with
      | none => exact absurd (hx none ho) (by simp)
      | some v => simp
    have hyany : (trailingWindow y w i).any (·.isNone) = false := by
      rw [List.any_eq_false]
      intro o ho
      cases o with
      | none => exact absurd (hy none ho) (by simp)
      | some v => simp
    rw [rollingBetaEntry, if_neg hge]
    simp only [hxany, hyany, Bool.or_self, Bool.false_eq_true, if_false]
    rw [if_pos hvar]
  · intro hge hbad
    rw [rollingBetaEntry, if_neg hge]
    rcases hbad with ⟨o, ho, hno⟩ | ⟨o, ho, hno⟩ | hle
    · have hany : (trailingWindow x w i).any (·.isNone) = true :=
        List.any_eq_true.mpr ⟨o, ho, hno⟩
      simp [hany]
    · have hany : (trailingWindow y w i).any (·.isNone) = true :=
        List.any_eq_true.mpr ⟨o, ho, hno⟩
      simp [hany]
    · split
      · rfl
      · rw [if_neg (not_lt.mpr hle)]
  · intro xs ys hw
    have hwne : ((w : ℚ) - 1) ≠ 0 := by
      have : (2 : ℚ) ≤ (w : ℚ) := by exact_mod_cast hw
      intro h
      nlinarith
    rw [windowCov, windowVar, olsSlope]
    exact div_div_cancel_common _ _ _ hwne

/-- C7 witness: on the two-point window `x = [0, 1]`, `y = [0, 2]` with
`window = 2`, index 0 is absent and index 1 is the OLS slope `2`. -/
theorem rolling_beta_spec_witness :
    rollingBetaEntry [some 0, some 1] [some 0, some 2] 2 0 = none ∧
    rollingBetaEntry [some 0, some 1] [some 0, some 2] 2 1 =
      some (windowCov ((trailingWindow [some 0, some 1] 2 1).filterMap id)
          ((trailingWindow [some 0, some 2] 2 1).filterMap id) 2 /
        windowVar ((trailingWindow [some 0, some 1] 2 1).filterMap id) 2) :=
  ⟨(rolling_beta_spec [some 0, some 1] [some 0, some 2] 2 0).1 (by decide),
    (rolling_beta_spec [some 0, some 1] [some 0, some 2] 2 1).2.2.1 (by decide)
      (by decide) (by decide)
      (by norm_num [trailingWindow, windowVar, listMean, varEps, List.filterMap_cons])⟩

/-- Alignment of two fully defined constant series keeps every row. -/
theorem alignedRows_replicate (n : ℕ) (a b : ℚ) :
    alignedRows (List.replicate n (some a)) (List.replicate n (some b)) =
      List.replicate n (a, b) := by
  induction n with
  | zero => rfl
  | succ k ih =>
    simp only [List.replicate_succ, alignedRows, List.zip_cons_cons, List.filterMap_cons] at *
    rw [ih]

/-- The cleaned observations of the sample inputs: all 100 rows survive. -/
theorem cleanedPairs_sample :
    cleanedPairs cfgW priceW1 priceW2 = List.replicate 100 ((1 : ℚ), 2) := by
  rw [cleanedPairs, priceW1, priceW2]
  simp only [List.length_replicate, cfgW, Nat.sub_self, List.drop_zero]
  exact alignedRows_replicate 100 1 2

/-! ### C6: the cointegration test never propagates an exception -/

/-- C6: every failure path of `test_cointegration` — too little raw data,
fewer than 100 aligned non-NaN observations after cleaning, or an exception
from either statistical routine — returns a result with
`is_cointegrated = false` and an explicit human-readable reason, instead of
raising; the embedded function is total. -/
theorem coint_no_exception (cfg : CointCfg) (O : StatsOracles) (log2 : ℚ)
    (price1 price2 : List (Option ℚ)) :
    (price1.length < cfg.lookback_window ∨ price2.length < cfg.lookback_window →
      testCointegration cfg O log2 price1 price2 = failureResult "Insufficient data") ∧
    (¬(price1.length < cfg.lookback_window ∨ price2.length < cfg.lookback_window) →
      (cleanedPairs cfg price1 price2).length < 100 →
      testCointegration cfg O log2 price1 price2 = failureResult "Too many NaN values") ∧
    (∀ e, ¬(price1.length < cfg.lookback_window ∨ price2.length < cfg.lookback_window) →
      ¬(cleanedPairs cfg price1 price2).length < 100 →
      O.coint ((cleanedPairs cfg price1 price2).map (·.1))
          ((cleanedPairs cfg price1 price2).map (·.2)) = .error e →
      testCointegration cfg O log2 price1 price2 = failureResult ("Test failed: " ++ e)) ∧
    (∀ e eg, ¬(price1.length < cfg.lookback_window ∨ price2.length < cfg.lookback_window) →
      ¬(cleanedPairs cfg price1 price2).length < 100 →
      O.coint ((cleanedPairs cfg price1 price2).map (·.1))
          ((cleanedPairs cfg price1 price2).map (·.2)) = .ok eg →
      O.adfuller (residualSpread cfg price1 price2) = .error e →
      testCointegration cfg O log2 price1 price2 = failureResult ("Test failed: " ++ e)) ∧
    (∀ s, (failureResult s).is_cointegrated = false ∧ (failureResult s).reason = s) := by
  refine ⟨?_, ?_, ?_, ?_, fun s => ⟨rfl, rfl⟩⟩
  · intro h
    rw [testCointegration, if_pos h]
  · intro h1 h2
    rw [testCointegration, if_neg h1]
    simp only []
    rw [if_pos (by simpa using h2)]
  · intro e h1 h2 hc
    rw [testCointegration, if_neg h1]
    simp only []
    rw [if_neg (by simpa using h2), hc]
  · intro e eg h1 h2 hc ha
    rw [testCointegration, if_neg h1]
    simp only []
    rw [if_neg (by simpa using h2), hc, ha]

/-- C6 witness: with only one raw observation against a 100-bar lookback, the
test reports not-cointegrated with the explicit reason, and does not raise. -/
theorem coint_no_exception_witness :
    testCointegration cfgW oracleW (693147/1000000) [some 1] [some 1] =
      failureResult "Insufficient data" ∧
    (failureResult "Insufficient data").is_cointegrated = false ∧
    (failureResult "Insufficient data").reason = "Insufficient data" :=
  ⟨(coint_no_exception cfgW oracleW (693147/1000000) [some 1] [some 1]).1
      (by norm_num [cfgW]),
    rfl, rfl⟩

/-! ### C5: the cointegration decision rule -/

/-- C5: whenever the test runs to completion (enough data, both statistical
routines return), the pair is declared cointegrated iff the ADF p-value and
the Engle-Granger p-value are both below `adf_threshold` and the half-life is
defined and lies within `[min_half_life, max_half_life]`; the half-life equals
`log(2)/theta` with `theta` the negated no-intercept OLS slope of the spread's
first differences on its lagged demeaned level, and is undefined iff
`theta ≤ 0`. -/
theorem coint_decision_iff (cfg : CointCfg) (O : StatsOracles) (log2 : ℚ)
    (price1 price2 : List (Option ℚ)) (eg adfS adfP : ℚ)
    (h1 : ¬(price1.length < cfg.lookback_window ∨ price2.length < cfg.lookback_window))
    (h2 : ¬(cleanedPairs cfg price1 price2).length < 100)
    (hcoint : O.coint ((cleanedPairs cfg price1 price2).map (·.1))
        ((cleanedPairs cfg price1 price2).map (·.2)) = .ok eg)
    (hadf : O.adfuller (residualSpread cfg price1 price2) = .ok (adfS, adfP)) :
    ((testCointegration cfg O log2 price1 price2).is_cointegrated = true ↔
      adfP < cfg.adf_threshold ∧ eg < cfg.adf_threshold ∧
      ∃ h, calculateHalfLife log2 (residualSpread cfg price1 price2) = some h ∧
        cfg.min_half_life ≤ h ∧ h ≤ cfg.max_half_life) ∧
    (testCointegration cfg O log2 price1 price2).half_life =
      calculateHalfLife log2 (residualSpread cfg price1 price2) ∧
    (∀ s : List ℚ,
      (0 < thetaOf s → calculateHalfLife log2 s = some (log2 / thetaOf s)) ∧
      (thetaOf s ≤ 0 → calculateHalfLife log2 s = none)) := by
  have hrun : testCointegration cfg O log2 price1 price2 =
      { is_cointegrated :=
          decide (adfP < cfg.adf_threshold) && decide (eg < cfg.adf_threshold) &&
          (match calculateHalfLife log2 (residualSpread cfg price1 price2) with
            | some h => decide (cfg.min_half_life ≤ h) && decide (h ≤ cfg.max_half_life)
            | none => false)
        reason :=
          if (decide (adfP < cfg.adf_threshold) && decide (eg < cfg.adf_threshold) &&
            (match calculateHalfLife log2 (residualSpread cfg price1 price2) with
              | some h => decide (cfg.min_half_life ≤ h) && decide (h ≤ cfg.max_half_life)
              | none => false)) = true
          then "Passed all tests"
          else getRejectionReason cfg adfP eg
            (calculateHalfLife log2 (residualSpread cfg price1 price2))
        p_value := none
        adf_pvalue := some adfP
        adf_statistic := some adfS
        eg_pvalue := some eg
        half_life := calculateHalfLife log2 (residualSpread cfg price1 price2)
        hedge_ratio := some (cointHedgeRatio cfg price1 price2)
        intercept := some (listMean ((cleanedPairs cfg price1 price2).map (·.1)) -
          cointHedgeRatio cfg price1 price2 * listMean ((cleanedPairs cfg price1 price2).map (·.2)))
        hurst := O.hurst (residualSpread cfg price1 price2) } := by
    rw [testCointegration, if_neg h1]
    simp only []
    rw [if_neg (by simpa using h2), hcoint, hadf]
  refine ⟨?_, by rw [hrun], ?_⟩
  · rw [hrun]
    simp only [Bool.and_eq_true, decide_eq_true_eq]
    cases hhl : calculateHalfLife log2 (residualSpread cfg price1 price2) with
    | none => simp
    | some h0 =>
      simp only [Bool.and_eq_true, decide_eq_true_eq]
      constructor
      · rintro ⟨⟨ha, hb⟩, hc, hd⟩
        exact ⟨ha, hb, h0, rfl, hc, hd⟩
      · rintro ⟨ha, hb, h', hh', hc, hd⟩
        cases hh'
        exact ⟨⟨ha, hb⟩, hc, hd⟩
  · intro s
    constructor
    · intro hpos
      rw [calculateHalfLife, if_neg (not_le.mpr hpos)]
    · intro hle
      rw [calculateHalfLife, if_pos hle]

/-- C5 witness: on constant 100-bar series with fixed oracle p-values the
decision rule is exactly the three-condition conjunction (here false, since
the constant spread is not mean-reverting and the half-life is undefined). -/
theorem coint_decision_iff_witness :
    ((testCointegration cfgW oracleW (693147/1000000) priceW1 priceW2).is_cointegrated = true ↔
      (1/100 : ℚ) < cfgW.adf_threshold ∧ (1/100 : ℚ) < cfgW.adf_threshold ∧
      ∃ h, calculateHalfLife (693147/1000000) (residualSpread cfgW priceW1 priceW2) = some h ∧
        cfgW.min_half_life ≤ h ∧ h ≤ cfgW.max_half_life) :=
  (coint_decision_iff cfgW oracleW (693147/1000000) priceW1 priceW2 (1/100) 0 (1/100)
    (by norm_num [priceW1, priceW2, cfgW])
    (by rw [cleanedPairs_sample]; norm_num)
    rfl rfl).1

/-- With an explicit save after every tick, restarting from the persisted
snapshot before each tick reproduces the in-memory run exactly. -/
theorem restartAlwaysSave_aux (z_in z_out z_stop : ℚ) :
    ∀ (ticks : List Tick) (m : TradingStateMachine),
      m.z_in = z_in → m.z_out = z_out → m.z_stop = z_stop →
      runWithRestartAlwaysSave z_in z_out z_stop (some (saveState m)) ticks =
        (runMachine m ticks).1 := by
  intro ticks
  induction ticks with
  | nil => intro m _ _ _; rfl
  | cons t ts ih =>
    intro m h1 h2 h3
    have hload : loadState (TradingStateMachine.init z_in z_out z_stop) (saveState m) = m := by
      subst h1; subst h2; subst h3
      exact loadState_saveState m
    have hthr := processTick_thresholds m t
    simp only [runWithRestartAlwaysSave, runMachine, hload]
    exact congrArg _ (ih (processTick m t).1 (hthr.1.1.trans h1) (hthr.1.2.trans h2)
      (hthr.2.trans h3))

/-- C3 amended: persisting with `save_state` after every tick (including
`NO_ACTION` ticks) and reloading before each tick produces the identical
signal sequence as a single in-memory run; with the source's own write policy
(no write on `NO_ACTION` ticks) the sequences can differ — see the
counterexample. -/
theorem persisted_reload_with_save_equiv (z_in z_out z_stop : ℚ) (ticks : List Tick) :
    runWithRestartAlwaysSave z_in z_out z_stop none ticks =
      runInMemory z_in z_out z_stop ticks := by
  cases ticks with
  | nil => rfl
  | cons t ts =>
    have hthr := processTick_thresholds (TradingStateMachine.init z_in z_out z_stop) t
    simp only [runWithRestartAlwaysSave, runInMemory, runMachine]
    exact congrArg _ (restartAlwaysSave_aux z_in z_out z_stop ts
      (processTick (TradingStateMachine.init z_in z_out z_stop) t).1
      hthr.1.1 hthr.1.2 hthr.2)

/-- C3 counterexample: on the z-score sequence `[1.9, 2.1]` with thresholds
`(2, 0.5, 3.5)` the in-memory run emits `EnterShort` on the second tick, but
reloading the persisted snapshot between the ticks loses the
`previous_zscore` update of the first (NoAction, hence unsaved) tick, so the
restart run emits no entry: the sequences differ. -/
theorem persisted_reload_differs :
    (runWithRestart 2 (1/2) (7/2) none (ticksOf [19/10, 21/10])).map (·.signal_type) =
      [SignalType.NO_ACTION, SignalType.NO_ACTION] ∧
    (runInMemory 2 (1/2) (7/2) (ticksOf [19/10, 21/10])).map (·.signal_type) =
      [SignalType.NO_ACTION, SignalType.ENTER_SHORT_SPREAD] ∧
    runWithRestart 2 (1/2) (7/2) none (ticksOf [19/10, 21/10]) ≠
      runInMemory 2 (1/2) (7/2) (ticksOf [19/10, 21/10]) := by
  have ha : (runWithRestart 2 (1/2) (7/2) none (ticksOf [19/10, 21/10])).map (·.signal_type) =
      [SignalType.NO_ACTION, SignalType.NO_ACTION] := by
    norm_num [runWithRestart, runInMemory, runMachine, processTick, tickBranch, isCrossing,
      ticksOf, mkTicks, TradingStateMachine.init, loadState, saveState, positionStateOfValue,
      PositionState.value]
  have hb : (runInMemory 2 (1/2) (7/2) (ticksOf [19/10, 21/10])).map (·.signal_type) =
      [SignalType.NO_ACTION, SignalType.ENTER_SHORT_SPREAD] := by
    norm_num [runWithRestart, runInMemory, runMachine, processTick, tickBranch, isCrossing,
      ticksOf, mkTicks, TradingStateMachine.init, loadState, saveState, positionStateOfValue,
      PositionState.value]
  refine ⟨ha, hb, ?_⟩
  intro h
  rw [h, hb] at ha
  exact absurd ha (by simp)

/-- Characterization of a downward crossing. -/
theorem isCrossing_below_iff (p c th : ℚ) :
    isCrossing p c th .below = true ↔ th ≤ p ∧ c < th := by
  simp [isCrossing, ge_iff_le, and_comm]

/-- Characterization of an upward crossing. -/
theorem isCrossing_above_iff (p c th : ℚ) :
    isCrossing p c th .above = true ↔ p ≤ th ∧ th < c := by
  simp [isCrossing, gt_iff_lt]

/-- Unfolding of `processTick` on a defined z-score, expressed through `tickBranch`. -/
theorem processTick_some (m : TradingStateMachine) (t : Tick) (z : ℚ) (h : t.zscore = some z) :
    processTick m t =
      ({ m with
          current_state := (tickBranch m t.timestamp z t.beta).2.2.1
          entry_zscore := (tickBranch m t.timestamp z t.beta).2.2.2.1
          entry_timestamp := (tickBranch m t.timestamp z t.beta).2.2.2.2.1
          entry_beta := (tickBranch m t.timestamp z t.beta).2.2.2.2.2
          previous_zscore := some z },
        { timestamp := t.timestamp
          signal_type := (tickBranch m t.timestamp z t.beta).1
          zscore := some z
          beta := t.beta
          spread := t.spread
          reason := (tickBranch m t.timestamp z t.beta).2.1
          btc_price := t.btc_price
          eth_price := t.eth_price
          previous_state := m.current_state
          new_state := (tickBranch m t.timestamp z t.beta).2.2.1 }) := by
  simp [processTick, h]

/-- Splitting a run over an appended tick list. -/
theorem runMachine_append (m : TradingStateMachine) (xs ys : List Tick) :
    runMachine m (xs ++ ys) =
      ((runMachine m xs).1 ++ (runMachine (runMachine m xs).2 ys).1,
        (runMachine (runMachine m xs).2 ys).2) := by
  induction xs generalizing m with
  | nil => simp [runMachine]
  | cons t ts ih => simp [runMachine, ih]

/-- While every z-score stays inside `(-z_in, z_in]`, a neutral machine emits
only `NO_ACTION` and merely tracks the previous z-score. -/
theorem neutral_phase (z_in : ℚ) :
    ∀ (zs : List ℚ) (m : TradingStateMachine),
      m.z_in = z_in → m.current_state = .NEUTRAL →
      (∀ b ∈ zs, -z_in < b ∧ b ≤ z_in) →
      ((runMachine m (ticksOf zs)).1.map (·.signal_type) =
          List.replicate zs.length SignalType.NO_ACTION) ∧
      (runMachine m (ticksOf zs)).2 =
        { m with previous_zscore := ((zs.getLast?).map some).getD m.previous_zscore } := by
  intro zs
  induction zs with
  | nil =>
    intro m h1 hst hall
    refine ⟨rfl, ?_⟩
    simp [ticksOf, mkTicks, runMachine]
  | cons b rest ih =>
    intro m h1 hst hall
    have hb := hall b (List.mem_cons_self b rest)
    have hrest : ∀ x ∈ rest, -z_in < x ∧ x ≤ z_in := fun x hx => hall x (List.mem_cons_of_mem b hx)
    have htick : ticksOf (b :: rest) = tickZ b :: ticksOf rest := by
      simp [ticksOf, mkTicks, tickZ]
    have hbr : tickBranch m 0 b 0 =
        (.NO_ACTION, "", m.current_state, m.entry_zscore, m.entry_timestamp, m.entry_beta) := by
      cases hpz : m.previous_zscore with
      | none => simp [tickBranch, hst, hpz]
      | some p =>
        have hnb : ¬ (b < -m.z_in) := by rw [h1]; linarith [hb.1]
        have hna : ¬ (b > m.z_in) := by rw [h1]; exact not_lt.mpr hb.2
        simp [tickBranch, hst, hpz, isCrossing, hnb, hna]
    have hstep : processTick m (tickZ b) =
        ({ m with previous_zscore := some b },
          { timestamp := 0, signal_type := .NO_ACTION, zscore := some b, beta := 0, spread := 0,
            reason := "", btc_price := 0, eth_price := 0,
            previous_state := m.current_state, new_state := m.current_state }) := by
      simp only [processTick, tickZ]
      rw [hbr]
    have ih' := ih { m with previous_zscore := some b } h1 hst hrest
    rw [htick]
    simp only [runMachine, hstep]
    refine ⟨?_, ?_⟩
    · simp only [List.map_cons, ih'.1, List.length_cons, List.replicate_succ]
    · rw [ih'.2]
      cases rest with
      | nil => simp
      | cons c r =>
        obtain ⟨v, hv⟩ := Option.isSome_iff_exists.mp
          (List.getLast?_isSome.mpr (List.cons_ne_nil c r))
        rw [List.getLast?_cons_cons, hv]
        simp

/-- After the previous z-score has moved strictly above `z_in` and all
subsequent z-scores stay strictly above `z_in`, a machine that is short or
neutral never emits another entry signal. -/
theorem no_entry_while_extreme (z_in : ℚ) (h0 : 0 ≤ z_in) :
    ∀ (zs : List ℚ) (m : TradingStateMachine),
      m.z_in = z_in →
      (m.current_state = .SHORT_SPREAD ∨ m.current_state = .NEUTRAL) →
      (∃ q, m.previous_zscore = some q ∧ z_in < q) →
      (∀ a ∈ zs, z_in < a) →
      ∀ s ∈ (runMachine m (ticksOf zs)).1,
        s.signal_type ≠ SignalType.ENTER_LONG_SPREAD ∧
        s.signal_type ≠ SignalType.ENTER_SHORT_SPREAD := by
  intro zs
  induction zs with
  | nil =>
    intro m _ _ _ _ s hs
    simp [ticksOf, mkTicks, runMachine] at hs
  | cons a rest ih =>
    intro m h1 hst hprev hall
    obtain ⟨q, hq, hqgt⟩ := hprev
    have ha := hall a (List.mem_cons_self a rest)
    have hrest : ∀ x ∈ rest, z_in < x := fun x hx => hall x (List.mem_cons_of_mem a hx)
    have htick : ticksOf (a :: rest) = tickZ a :: ticksOf rest := by
      simp [ticksOf, mkTicks, tickZ]
    -- the branch taken at this tick never enters, and keeps the machine
    -- short-or-neutral with previous z-score `a`
    have hbranch : (tickBranch m 0 a 0).1 ≠ SignalType.ENTER_LONG_SPREAD ∧
        (tickBranch m 0 a 0).1 ≠ SignalType.ENTER_SHORT_SPREAD ∧
        ((tickBranch m 0 a 0).2.2.1 = .SHORT_SPREAD ∨ (tickBranch m 0 a 0).2.2.1 = .NEUTRAL) := by
      rcases hst with hshort | hneutral
      · by_cases hstop : |a| > m.z_stop
        · simp [tickBranch, hshort, hstop]
        · by_cases hexit : |a| < m.z_out
          · simp [tickBranch, hshort, hstop, hexit]
          · simp [tickBranch, hshort, hstop, hexit]
      · have hnb : ¬ (a < -m.z_in) := by rw [h1]; linarith
        have hna : ¬ (q ≤ m.z_in) := by rw [h1]; exact not_le.mpr hqgt
        simp [tickBranch, hneutral, hq, isCrossing, hnb, hna]
    intro s hs
    rw [htick] at hs
    simp only [runMachine] at hs
    rcases List.mem_cons.mp hs with hhead | htail
    · rw [hhead]
      exact ⟨hbranch.1, hbranch.2.1⟩
    · exact ih ((processTick m (tickZ a)).1) h1 hbranch.2.2 ⟨a, rfl, ha⟩ hrest s htail

/-! ### C1: entries only on threshold crossings -/

/-- C1: an entry signal is emitted only from the neutral state on a tick whose
z-score crosses the entry threshold relative to the stored previous z-score
(`previous ≥ -z_in` and `current < -z_in` for EnterLong; `previous ≤ z_in` and
`current > z_in` for EnterShort); and for every z-score sequence that stays in
`(-z_in, z_in]` before rising above `z_in` at the crossing tick and remains
above `z_in` afterwards, exactly one `EnterShort` is emitted, at the crossing
tick, and no entry is emitted on any other tick. -/
theorem entry_only_on_crossing :
    (∀ (m : TradingStateMachine) (t : Tick),
      ((processTick m t).2.signal_type = SignalType.ENTER_LONG_SPREAD →
        m.current_state = .NEUTRAL ∧ ∃ p z, m.previous_zscore = some p ∧ t.zscore = some z ∧
          -m.z_in ≤ p ∧ z < -m.z_in) ∧
      ((processTick m t).2.signal_type = SignalType.ENTER_SHORT_SPREAD →
        m.current_state = .NEUTRAL ∧ ∃ p z, m.previous_zscore = some p ∧ t.zscore = some z ∧
          p ≤ m.z_in ∧ m.z_in < z)) ∧
    (∀ (z_in z_out z_stop : ℚ) (before after : List ℚ) (cur : ℚ),
      0 ≤ z_in → (hne : before ≠ []) →
      (∀ b ∈ before, -z_in < b ∧ b ≤ z_in) →
      z_in < cur → (∀ a ∈ after, z_in < a) →
      ((runInMemory z_in z_out z_stop (ticksOf (before ++ cur :: after))).map
          (·.signal_type)).getD before.length SignalType.NO_ACTION =
        SignalType.ENTER_SHORT_SPREAD ∧
      ((runInMemory z_in z_out z_stop (ticksOf (before ++ cur :: after))).map
          (·.signal_type)).count SignalType.ENTER_SHORT_SPREAD = 1 ∧
      ((runInMemory z_in z_out z_stop (ticksOf (before ++ cur :: after))).map
          (·.signal_type)).count SignalType.ENTER_LONG_SPREAD = 0) := by
  constructor
  · intro m t
    cases ht : t.zscore with
    | none => simp [processTick, ht]
    | some z =>
      have hsig : (processTick m t).2.signal_type = (tickBranch m t.timestamp z t.beta).1 := by
        simp [processTick, ht]
      cases hst : m.current_state with
      | NEUTRAL =>
        cases hpz : m.previous_zscore with
        | none =>
          have hbr : (tickBranch m t.timestamp z t.beta).1 = .NO_ACTION := by
            simp [tickBranch, hst, hpz]
          simp [hsig, hbr]
        | some p =>
          cases hb : isCrossing p z (-m.z_in) .below with
          | true =>
            have hbr : (tickBranch m t.timestamp z t.beta).1 = .ENTER_LONG_SPREAD := by
              simp [tickBranch, hst, hpz, hb]
            obtain ⟨hge, hlt⟩ := (isCrossing_below_iff p z (-m.z_in)).mp hb
            constructor
            · intro _
              exact ⟨rfl, p, z, rfl, rfl, hge, hlt⟩
            · intro h
              rw [hsig, hbr] at h
              simp at h
          | false =>
            cases ha : isCrossing p z m.z_in .above with
            | true =>
              have hbr : (tickBranch m t.timestamp z t.beta).1 = .ENTER_SHORT_SPREAD := by
                simp [tickBranch, hst, hpz, hb, ha]
              obtain ⟨hple, hlt⟩ := (isCrossing_above_iff p z m.z_in).mp ha
              constructor
              · intro h
                rw [hsig, hbr] at h
                simp at h
              · intro _
                exact ⟨rfl, p, z, rfl, rfl, hple, hlt⟩
            | false =>
              have hbr : (tickBranch m t.timestamp z t.beta).1 = .NO_ACTION := by
                simp [tickBranch, hst, hpz, hb, ha]
              simp [hsig, hbr]
      | LONG_SPREAD =>
        by_cases hstop : |z| > m.z_stop
        · have hbr : (tickBranch m t.timestamp z t.beta).1 = .STOP_LOSS := by
            simp [tickBranch, hst, hstop]
          simp [hsig, hbr]
        · by_cases hexit : |z| < m.z_out
          · have hbr : (tickBranch m t.timestamp z t.beta).1 = .EXIT_POSITION := by
              simp [tickBranch, hst, hstop, hexit]
            simp [hsig, hbr]
          · have hbr : (tickBranch m t.timestamp z t.beta).1 = .NO_ACTION := by
              simp [tickBranch, hst, hstop, hexit]
            simp [hsig, hbr]
      | SHORT_SPREAD =>
        by_cases hstop : |z| > m.z_stop
        · have hbr : (tickBranch m t.timestamp z t.beta).1 = .STOP_LOSS := by
            simp [tickBranch, hst, hstop]
          simp [hsig, hbr]
        · by_cases hexit : |z| < m.z_out
          · have hbr : (tickBranch m t.timestamp z t.beta).1 = .EXIT_POSITION := by
              simp [tickBranch, hst, hstop, hexit]
            simp [hsig, hbr]
          · have hbr : (tickBranch m t.timestamp z t.beta).1 = .NO_ACTION := by
              simp [tickBranch, hst, hstop, hexit]
            simp [hsig, hbr]
  · intro z_in z_out z_stop before after cur h0 hne hbefore hcur hafter
    have np := neutral_phase z_in before (TradingStateMachine.init z_in z_out z_stop)
      rfl rfl hbefore
    have hlast : before.getLast? = some (before.getLast hne) := List.getLast?_eq_getLast before hne
    obtain ⟨hlb1, hlb2⟩ := hbefore _ (List.getLast_mem hne)
    have hm1 : (runMachine (TradingStateMachine.init z_in z_out z_stop) (ticksOf before)).2 =
        { z_in := z_in, z_out := z_out, z_stop := z_stop, current_state := .NEUTRAL,
          entry_zscore := none, entry_timestamp := none, entry_beta := none,
          previous_zscore := some (before.getLast hne) } := by
      rw [np.2, hlast]
      simp [TradingStateMachine.init]
    have hc1 : isCrossing (before.getLast hne) cur (-z_in) .below = false := by
      have hnb : ¬ (cur < -z_in) := by linarith
      simp [isCrossing, hnb]
    have hc2 : isCrossing (before.getLast hne) cur z_in .above = true :=
      (isCrossing_above_iff _ cur z_in).mpr ⟨hlb2, hcur⟩
    have hbr : tickBranch
        { z_in := z_in, z_out := z_out, z_stop := z_stop, current_state := .NEUTRAL,
          entry_zscore := none, entry_timestamp := none, entry_beta := none,
          previous_zscore := some (before.getLast hne) } 0 cur 0 =
        (.ENTER_SHORT_SPREAD, "Z-score crossed above " ++ fmtRat z_in,
          .SHORT_SPREAD, some cur, some 0, some 0) := by
      simp [tickBranch, hc1, hc2]
    have hstep : processTick
        { z_in := z_in, z_out := z_out, z_stop := z_stop, current_state := .NEUTRAL,
          entry_zscore := none, entry_timestamp := none, entry_beta := none,
          previous_zscore := some (before.getLast hne) } (tickZ cur) =
        ({ z_in := z_in, z_out := z_out, z_stop := z_stop, current_state := .SHORT_SPREAD,
           entry_zscore := some cur, entry_timestamp := some 0, entry_beta := some 0,
           previous_zscore := some cur },
         { timestamp := 0, signal_type := .ENTER_SHORT_SPREAD, zscore := some cur, beta := 0,
           spread := 0, reason := "Z-score crossed above " ++ fmtRat z_in, btc_price := 0,
           eth_price := 0, previous_state := .NEUTRAL, new_state := .SHORT_SPREAD }) := by
      simp only [processTick, tickZ]
      rw [hbr]
    have hno := no_entry_while_extreme z_in h0 after
      { z_in := z_in, z_out := z_out, z_stop := z_stop, current_state := .SHORT_SPREAD,
        entry_zscore := some cur, entry_timestamp := some 0, entry_beta := some 0,
        previous_zscore := some cur } rfl (Or.inl rfl) ⟨cur, rfl, hcur⟩ hafter
    have hticks : ticksOf (before ++ cur :: after) =
        ticksOf before ++ (tickZ cur :: ticksOf after) := by
      simp [ticksOf, mkTicks, tickZ]
    have hfull : runInMemory z_in z_out z_stop (ticksOf (before ++ cur :: after)) =
        (runMachine (TradingStateMachine.init z_in z_out z_stop) (ticksOf before)).1 ++
          ({ timestamp := 0, signal_type := .ENTER_SHORT_SPREAD, zscore := some cur, beta := 0,
             spread := 0, reason := "Z-score crossed above " ++ fmtRat z_in, btc_price := 0,
             eth_price := 0, previous_state := .NEUTRAL,
             new_state := .SHORT_SPREAD } : TradingSignal) ::
            (runMachine
              { z_in := z_in, z_out := z_out, z_stop := z_stop,
                current_state := .SHORT_SPREAD, entry_zscore := some cur,
                entry_timestamp := some 0, entry_beta := some 0,
                previous_zscore := some cur } (ticksOf after)).1 := by
      rw [runInMemory, hticks, runMachine_append, hm1]
      simp only [runMachine, hstep]
    have hcount_tail_short :
        ((runMachine
            { z_in := z_in, z_out := z_out, z_stop := z_stop,
              current_state := .SHORT_SPREAD, entry_zscore := some cur,
              entry_timestamp := some 0, entry_beta := some 0,
              previous_zscore := some cur } (ticksOf after)).1.map (·.signal_type)).count
          SignalType.ENTER_SHORT_SPREAD = 0 := by
      rw [List.count_eq_zero]
      intro hmem
      obtain ⟨s, hsmem, hstype⟩ := List.mem_map.mp hmem
      exact (hno s hsmem).2 hstype
    have hcount_tail_long :
        ((runMachine
            { z_in := z_in, z_out := z_out, z_stop := z_stop,
              current_state := .SHORT_SPREAD, entry_zscore := some cur,
              entry_timestamp := some 0, entry_beta := some 0,
              previous_zscore := some cur } (ticksOf after)).1.map (·.signal_type)).count
          SignalType.ENTER_LONG_SPREAD = 0 := by
      rw [List.count_eq_zero]
      intro hmem
      obtain ⟨s, hsmem, hstype⟩ := List.mem_map.mp hmem
      exact (hno s hsmem).1 hstype
    rw [hfull]
    rw [List.map_append, List.map_cons, np.1]
    refine ⟨?_, ?_, ?_⟩
    · rw [List.getD_append_right _ _ _ _ (by simp)]
      simp
    · rw [List.count_append, List.count_cons, hcount_tail_short]
      simp [List.count_replicate]
    · rw [List.count_append, List.count_cons, hcount_tail_long]
      simp [List.count_replicate]

/-- C1 witness: the sequence `[1, 1.9] ++ 2.1 :: [2.2, 2.3]` with `z_in = 2`
yields exactly one `EnterShort`, at the crossing index 2, and no other entry. -/
theorem entry_only_on_crossing_witness :
    ((runInMemory 2 (1/2) (7/2) (ticksOf ([1, 19/10] ++ (21/10) :: [22/10, 23/10]))).map
        (·.signal_type)).getD ([1, 19/10] : List ℚ).length SignalType.NO_ACTION =
      SignalType.ENTER_SHORT_SPREAD ∧
    ((runInMemory 2 (1/2) (7/2) (ticksOf ([1, 19/10] ++ (21/10) :: [22/10, 23/10]))).map
        (·.signal_type)).count SignalType.ENTER_SHORT_SPREAD = 1 ∧
    ((runInMemory 2 (1/2) (7/2) (ticksOf ([1, 19/10] ++ (21/10) :: [22/10, 23/10]))).map
        (·.signal_type)).count SignalType.ENTER_LONG_SPREAD = 0 :=
  entry_only_on_crossing.2 2 (1/2) (7/2) [1, 19/10] [22/10, 23/10] (21/10)
    (by norm_num) (by simp)
    (by intro b hb; fin_cases hb <;> norm_num)
    (by norm_num)
    (by intro a ha; fin_cases ha <;> norm_num)

/-- The vectorized entry mask is empty at the first row (its shifted previous
z-score is NaN). -/
theorem vecSignal_zero (z : List (Option ℚ)) (z_in : ℚ) : vecSignal z z_in 0 = 0 := by
  simp [vecSignal]

/-- The vectorized entry mask at a later row with defined current and previous
z-scores, expressed through the crossing predicate of the state machine. -/
theorem vecSignal_succ (z : List (Option ℚ)) (z_in : ℚ) (i : ℕ) (p c : ℚ)
    (hi : i ≠ 0) (hp : z.getD (i - 1) none = some p) (hc : z.getD i none = some c) :
    vecSignal z z_in i =
      if isCrossing p c z_in .above = true then -1
      else if isCrossing p c (-z_in) .below = true then 1
      else 0 := by
  rw [List.getD_eq_getElem?_getD] at hp hc
  simp [vecSignal, hi, hp, hc, isCrossing]

/-- Neutral machine without a stored previous z-score: NoAction. -/
theorem step_neutral_noprev (m : TradingStateMachine) (zv : ℚ)
    (hst : m.current_state = .NEUTRAL) (hpz : m.previous_zscore = none) :
    processTick m (tickZ zv) =
      ({ m with previous_zscore := some zv },
        { timestamp := 0, signal_type := .NO_ACTION, zscore := some zv, beta := 0, spread := 0,
          reason := "", btc_price := 0, eth_price := 0,
          previous_state := .NEUTRAL, new_state := .NEUTRAL }) := by
  have hbr : tickBranch m 0 zv 0 =
      (.NO_ACTION, "", m.current_state, m.entry_zscore, m.entry_timestamp, m.entry_beta) := by
    simp [tickBranch, hst, hpz]
  simp only [processTick, tickZ]
  rw [hbr, hst]

/-- Neutral machine, stored previous z-score, no crossing: NoAction. -/
theorem step_neutral_nocross (m : TradingStateMachine) (zv p : ℚ)
    (hst : m.current_state = .NEUTRAL) (hpz : m.previous_zscore = some p)
    (hb : isCrossing p zv (-m.z_in) .below = false)
    (ha : isCrossing p zv m.z_in .above = false) :
    processTick m (tickZ zv) =
      ({ m with previous_zscore := some zv },
        { timestamp := 0, signal_type := .NO_ACTION, zscore := some zv, beta := 0, spread := 0,
          reason := "", btc_price := 0, eth_price := 0,
          previous_state := .NEUTRAL, new_state := .NEUTRAL }) := by
  have hbr : tickBranch m 0 zv 0 =
      (.NO_ACTION, "", m.current_state, m.entry_zscore, m.entry_timestamp, m.entry_beta) := by
    simp [tickBranch, hst, hpz, hb, ha]
  simp only [processTick, tickZ]
  rw [hbr, hst]

/-- Neutral machine, downward crossing: EnterLong. -/
theorem step_neutral_long (m : TradingStateMachine) (zv p : ℚ)
    (hst : m.current_state = .NEUTRAL) (hpz : m.previous_zscore = some p)
    (hb : isCrossing p zv (-m.z_in) .below = true) :
    processTick m (tickZ zv) =
      ({ m with
          current_state := .LONG_SPREAD
          entry_zscore := some zv
          entry_timestamp := some 0
          entry_beta := some 0
          previous_zscore := some zv },
        { timestamp := 0, signal_type := .ENTER_LONG_SPREAD, zscore := some zv, beta := 0,
          spread := 0, reason := "Z-score crossed below -" ++ fmtRat m.z_in, btc_price := 0,
          eth_price := 0, previous_state := .NEUTRAL, new_state := .LONG_SPREAD }) := by
  have hbr : tickBranch m 0 zv 0 =
      (.ENTER_LONG_SPREAD, "Z-score crossed below -" ++ fmtRat m.z_in,
        .LONG_SPREAD, some zv, some 0, some 0) := by
    simp [tickBranch, hst, hpz, hb]
  simp only [processTick, tickZ]
  rw [hbr, hst]

/-- Neutral machine, upward crossing (and no downward crossing): EnterShort. -/
theorem step_neutral_short (m : TradingStateMachine) (zv p : ℚ)
    (hst : m.current_state = .NEUTRAL) (hpz : m.previous_zscore = some p)
    (hb : isCrossing p zv (-m.z_in) .below = false)
    (ha : isCrossing p zv m.z_in .above = true) :
    processTick m (tickZ zv) =
      ({ m with
          current_state := .SHORT_SPREAD
          entry_zscore := some zv
          entry_timestamp := some 0
          entry_beta := some 0
          previous_zscore := some zv },
        { timestamp := 0, signal_type := .ENTER_SHORT_SPREAD, zscore := some zv, beta := 0,
          spread := 0, reason := "Z-score crossed above " ++ fmtRat m.z_in, btc_price := 0,
          eth_price := 0, previous_state := .NEUTRAL, new_state := .SHORT_SPREAD }) := by
  have hbr : tickBranch m 0 zv 0 =
      (.ENTER_SHORT_SPREAD, "Z-score crossed above " ++ fmtRat m.z_in,
        .SHORT_SPREAD, some zv, some 0, some 0) := by
    simp [tickBranch, hst, hpz, hb, ha]
  simp only [processTick, tickZ]
  rw [hbr, hst]

/-- Machine in a position, stop-loss threshold breached: StopLoss. -/
theorem step_inpos_stop (m : TradingStateMachine) (zv : ℚ)
    (hst : m.current_state = .LONG_SPREAD ∨ m.current_state = .SHORT_SPREAD)
    (hstop : |zv| > m.z_stop) :
    processTick m (tickZ zv) =
      ({ m with
          current_state := .NEUTRAL
          entry_zscore := none
          entry_timestamp := none
          entry_beta := none
          previous_zscore := some zv },
        { timestamp := 0, signal_type := .STOP_LOSS, zscore := some zv, beta := 0, spread := 0,
          reason := "Stop loss triggered (|z| > " ++ fmtRat m.z_stop ++ ")", btc_price := 0,
          eth_price := 0, previous_state := m.current_state, new_state := .NEUTRAL }) := by
  have hbr : tickBranch m 0 zv 0 =
      (.STOP_LOSS, "Stop loss triggered (|z| > " ++ fmtRat m.z_stop ++ ")",
        .NEUTRAL, none, none, none) := by
    rcases hst with h | h <;> simp [tickBranch, h, hstop]
  simp only [processTick, tickZ]
  rw [hbr]

/-- Machine in a position, inside the stop band but under the exit band: Exit. -/
theorem step_inpos_exit (m : TradingStateMachine) (zv : ℚ)
    (hst : m.current_state = .LONG_SPREAD ∨ m.current_state = .SHORT_SPREAD)
    (hstop : ¬ |zv| > m.z_stop) (hexit : |zv| < m.z_out) :
    processTick m (tickZ zv) =
      ({ m with
          current_state := .NEUTRAL
          entry_zscore := none
          entry_timestamp := none
          entry_beta := none
          previous_zscore := some zv },
        { timestamp := 0, signal_type := .EXIT_POSITION, zscore := some zv, beta := 0,
          spread := 0, reason := "Exit signal (|z| < " ++ fmtRat m.z_out ++ ")", btc_price := 0,
          eth_price := 0, previous_state := m.current_state, new_state := .NEUTRAL }) := by
  have hbr : tickBranch m 0 zv 0 =
      (.EXIT_POSITION, "Exit signal (|z| < " ++ fmtRat m.z_out ++ ")",
        .NEUTRAL, none, none, none) := by
    rcases hst with h | h <;> simp [tickBranch, h, hstop, hexit]
  simp only [processTick, tickZ]
  rw [hbr]

/-- Machine in a position, between the exit and stop bands: NoAction, hold. -/
theorem step_inpos_hold (m : TradingStateMachine) (zv : ℚ)
    (hst : m.current_state = .LONG_SPREAD ∨ m.current_state = .SHORT_SPREAD)
    (hstop : ¬ |zv| > m.z_stop) (hexit : ¬ |zv| < m.z_out) :
    processTick m (tickZ zv) =
      ({ m with previous_zscore := some zv },
        { timestamp := 0, signal_type := .NO_ACTION, zscore := some zv, beta := 0, spread := 0,
          reason := "", btc_price := 0, eth_price := 0,
          previous_state := m.current_state, new_state := m.current_state }) := by
  have hbr : tickBranch m 0 zv 0 =
      (.NO_ACTION, "", m.current_state, m.entry_zscore, m.entry_timestamp, m.entry_beta) := by
    rcases hst with h | h <;> simp [tickBranch, h, hstop, hexit]
  simp only [processTick, tickZ]
  rw [hbr]

/-- Under the no-reentry hypothesis, the forward-filled positions of the
vectorized backtester coincide tick by tick with the state machine's position
states.  The invariant carries the current position, the machine state and the
previous-row z-score. -/
theorem ff_matches_machine (z_in z_out z_stop : ℚ) (zs : List (Option ℚ))
    (h0 : 0 ≤ z_in)
    (hdef : ∀ o ∈ zs, o.isSome = true)
    (hnore : ∀ i, 1 ≤ i → i < zs.length →
      (generateSignalsVectorized zs z_in z_out z_stop).getD (i - 1) 0 ≠ 0 →
      vecSignal zs z_in i = 0) :
    ∀ (l : List (Option ℚ)) (i : ℕ) (p : Int) (m : TradingStateMachine),
      zs.drop i = l →
      m.z_in = z_in → m.z_out = z_out → m.z_stop = z_stop →
      m.current_state = stateOfPos p →
      (p = 0 ∨ p = 1 ∨ p = -1) →
      (i = 0 → p = 0 ∧ m.previous_zscore = none) →
      (i ≠ 0 → p = (generateSignalsVectorized zs z_in z_out z_stop).getD (i - 1) 0 ∧
        m.previous_zscore = zs.getD (i - 1) none) →
      forwardFill zs z_in z_out z_stop i p l =
        (runMachine m (mkTicks l)).1.map (fun s => posOfState s.new_state) := by
  intro l
  induction l with
  | nil => intro i p m _ _ _ _ _ _ _ _; rfl
  | cons zi rest ih =>
    intro i p m hdrop h1 h2 h3 hst hpset hzero hsucc
    have hi_lt : i < zs.length := by
      by_contra hh
      rw [List.drop_eq_nil_of_le (not_lt.mp hh)] at hdrop
      exact (List.cons_ne_nil zi rest) hdrop.symm
    have hgetElem : zs[i]? = some zi := by
      have h := List.getElem?_drop zs i 0
      rw [hdrop] at h
      simpa using h.symm
    have hzi_mem : zi ∈ zs := List.getElem?_mem hgetElem
    obtain ⟨zv, rfl⟩ := Option.isSome_iff_exists.mp (hdef zi hzi_mem)
    have hgetD_i : zs.getD i none = some zv := by
      rw [List.getD_eq_getElem?_getD, hgetElem]
      rfl
    have hdrop' : zs.drop (i + 1) = rest := by
      have h : zs.drop (i + 1) = (zs.drop i).drop 1 := by
        rw [List.drop_drop, Nat.add_comm]
      rw [h, hdrop, List.drop_one, List.tail_cons]
    have hout : (generateSignalsVectorized zs z_in z_out z_stop).getD i 0 =
        stepPos zs z_in z_out z_stop i p (some zv) := by
      have h := forwardFill_getD zs z_in z_out z_stop zs 0 0 i hi_lt
      rcases Nat.eq_zero_or_pos i with hi0 | hipos
      · subst hi0
        rw [generateSignalsVectorized, h, Nat.zero_add, hgetD_i, if_pos rfl, (hzero rfl).1]
      · have hine : i ≠ 0 := Nat.pos_iff_ne_zero.mp hipos
        have hs1 := (hsucc hine).1
        rw [generateSignalsVectorized] at hs1
        rw [generateSignalsVectorized, h, Nat.zero_add, hgetD_i, if_neg hine, ← hs1]
    have hmk : mkTicks (some zv :: rest) = tickZ zv :: mkTicks rest := rfl
    have hff : forwardFill zs z_in z_out z_stop i p (some zv :: rest) =
        stepPos zs z_in z_out z_stop i p (some zv) ::
          forwardFill zs z_in z_out z_stop (i + 1)
            (stepPos zs z_in z_out z_stop i p (some zv)) rest := rfl
    -- helper for assembling the goal once the step is known
    have hassemble : ∀ (m' : TradingStateMachine) (sig : TradingSignal) (v : Int),
        processTick m (tickZ zv) = (m', sig) →
        stepPos zs z_in z_out z_stop i p (some zv) = v →
        posOfState sig.new_state = v →
        m'.z_in = z_in → m'.z_out = z_out → m'.z_stop = z_stop →
        m'.current_state = stateOfPos v →
        (v = 0 ∨ v = 1 ∨ v = -1) →
        m'.previous_zscore = some zv →
        forwardFill zs z_in z_out z_stop i p (some zv :: rest) =
          (runMachine m (mkTicks (some zv :: rest))).1.map
            (fun s => posOfState s.new_state) := by
      intro m' sig v hstep hv hsig hm1 hm2 hm3 hmst hvset hmprev
      rw [hff, hmk]
      simp only [runMachine, hstep, List.map_cons]
      rw [hv, hsig]
      have happly := ih (i + 1) v m' hdrop' hm1 hm2 hm3 hmst hvset
        (fun h => absurd h (Nat.succ_ne_zero i))
        (fun _ => ⟨by rw [Nat.add_sub_cancel, hout, hv], by rw [Nat.add_sub_cancel, hgetD_i, hmprev]⟩)
      rw [happly]
    rcases hpset with hp | hp | hp
    · -- currently flat: the machine is neutral
      subst hp
      have hstN : m.current_state = .NEUTRAL := by rw [hst]; rfl
      rcases Nat.eq_zero_or_pos i with hi0 | hipos
      · -- first row: the shifted mask is empty, NoAction on both sides
        subst hi0
        have hpz : m.previous_zscore = none := (hzero rfl).2
        have hSP : stepPos zs z_in z_out z_stop 0 0 (some zv) = 0 := by
          simp [stepPos, vecSignal_zero]
        exact hassemble _ _ 0 (step_neutral_noprev m zv hstN hpz) hSP rfl h1 h2 h3
          (by rw [hstN]; rfl) (Or.inl rfl) rfl
      · -- later row: previous z-score is the previous row's value
        have hine : i ≠ 0 := Nat.pos_iff_ne_zero.mp hipos
        have hlt' : i - 1 < zs.length := lt_of_le_of_lt (Nat.sub_le i 1) hi_lt
        have hgep : ∃ o, zs[i - 1]? = some o := by
          rw [List.getElem?_eq_getElem hlt']
          exact ⟨_, rfl⟩
        obtain ⟨o, ho⟩ := hgep
        obtain ⟨pv, hpv⟩ := Option.isSome_iff_exists.mp (hdef o (List.getElem?_mem ho))
        subst hpv
        have hgetD_prev : zs.getD (i - 1) none = some pv := by
          rw [List.getD_eq_getElem?_getD, ho]
          rfl
        have hpz : m.previous_zscore = some pv := by
          rw [(hsucc hine).2, hgetD_prev]
        have hvs := vecSignal_succ zs z_in i pv zv hine hgetD_prev hgetD_i
        cases ha : isCrossing pv zv z_in .above with
        | true =>
          have hb : isCrossing pv zv (-z_in) .below = false := by
            have h' := (isCrossing_above_iff pv zv z_in).mp ha
            have : ¬ (zv < -z_in) := by linarith [h'.2]
            simp [isCrossing, this]
          have hSP : stepPos zs z_in z_out z_stop i 0 (some zv) = -1 := by
            rw [stepPos]
            simp [hvs, ha, hb]
          have hb' : isCrossing pv zv (-m.z_in) .below = false := by rw [h1]; exact hb
          have ha' : isCrossing pv zv m.z_in .above = true := by rw [h1]; exact ha
          exact hassemble _ _ (-1) (step_neutral_short m zv pv hstN hpz hb' ha') hSP rfl
            h1 h2 h3 rfl (Or.inr (Or.inr rfl)) rfl
        | false =>
          cases hb : isCrossing pv zv (-z_in) .below with
          | true =>
            have hSP : stepPos zs z_in z_out z_stop i 0 (some zv) = 1 := by
              rw [stepPos]
              simp [hvs, ha, hb]
            have hb' : isCrossing pv zv (-m.z_in) .below = true := by rw [h1]; exact hb
            exact hassemble _ _ 1 (step_neutral_long m zv pv hstN hpz hb') hSP rfl
              h1 h2 h3 rfl (Or.inr (Or.inl rfl)) rfl
          | false =>
            have hSP : stepPos zs z_in z_out z_stop i 0 (some zv) = 0 := by
              rw [stepPos]
              simp [hvs, ha, hb]
            have hb' : isCrossing pv zv (-m.z_in) .below = false := by rw [h1]; exact hb
            have ha' : isCrossing pv zv m.z_in .above = false := by rw [h1]; exact ha
            exact hassemble _ _ 0 (step_neutral_nocross m zv pv hstN hpz hb' ha') hSP rfl
              h1 h2 h3 (by rw [hstN]; rfl) (Or.inl rfl) rfl
    · -- currently long: the no-reentry hypothesis silences the mask
      subst hp
      have hine : i ≠ 0 := fun h => absurd (hzero h).1 (by decide)
      have hs : vecSignal zs z_in i = 0 :=
        hnore i (Nat.one_le_iff_ne_zero.mpr hine) hi_lt
          (by rw [← (hsucc hine).1]; decide)
      have hstP : m.current_state = .LONG_SPREAD ∨ m.current_state = .SHORT_SPREAD :=
        Or.inl (by rw [hst]; rfl)
      by_cases hstop : |zv| > z_stop
      · have hstop' : |zv| > m.z_stop := by rw [h3]; exact hstop
        have hSP : stepPos zs z_in z_out z_stop i 1 (some zv) = 0 := by
          rw [stepPos]
          simp [hs, hstop]
        exact hassemble _ _ 0 (step_inpos_stop m zv hstP hstop') hSP rfl h1 h2 h3 rfl
          (Or.inl rfl) rfl
      · have hstop' : ¬ |zv| > m.z_stop := by rw [h3]; exact hstop
        by_cases hexit : |zv| < z_out
        · have hexit' : |zv| < m.z_out := by rw [h2]; exact hexit
          have hSP : stepPos zs z_in z_out z_stop i 1 (some zv) = 0 := by
            rw [stepPos]
            simp [hs, hexit]
          exact hassemble _ _ 0 (step_inpos_exit m zv hstP hstop' hexit') hSP rfl h1 h2 h3 rfl
            (Or.inl rfl) rfl
        · have hexit' : ¬ |zv| < m.z_out := by rw [h2]; exact hexit
          have hSP : stepPos zs z_in z_out z_stop i 1 (some zv) = 1 := by
            rw [stepPos]
            simp [hs, hstop, hexit]
          exact hassemble _ _ 1 (step_inpos_hold m zv hstP hstop' hexit') hSP
            (by rw [hst]; rfl) h1 h2 h3 (by rw [hst]) (Or.inr (Or.inl rfl)) rfl
    · -- currently short: symmetric to the long case
      subst hp
      have hine : i ≠ 0 := fun h => absurd (hzero h).1 (by decide)
      have hs : vecSignal zs z_in i = 0 :=
        hnore i (Nat.one_le_iff_ne_zero.mpr hine) hi_lt
          (by rw [← (hsucc hine).1]; decide)
      have hstP : m.current_state = .LONG_SPREAD ∨ m.current_state = .SHORT_SPREAD :=
        Or.inr (by rw [hst]; rfl)
      by_cases hstop : |zv| > z_stop
      · have hstop' : |zv| > m.z_stop := by rw [h3]; exact hstop
        have hSP : stepPos zs z_in z_out z_stop i (-1) (some zv) = 0 := by
          rw [stepPos]
          simp [hs, hstop]
        exact hassemble _ _ 0 (step_inpos_stop m zv hstP hstop') hSP rfl h1 h2 h3 rfl
          (Or.inl rfl) rfl
      · have hstop' : ¬ |zv| > m.z_stop := by rw [h3]; exact hstop
        by_cases hexit : |zv| < z_out
        · have hexit' : |zv| < m.z_out := by rw [h2]; exact hexit
          have hSP : stepPos zs z_in z_out z_stop i (-1) (some zv) = 0 := by
            rw [stepPos]
            simp [hs, hexit]
          exact hassemble _ _ 0 (step_inpos_exit m zv hstP hstop' hexit') hSP rfl h1 h2 h3 rfl
            (Or.inl rfl) rfl
        · have hexit' : ¬ |zv| < m.z_out := by rw [h2]; exact hexit
          have hSP : stepPos zs z_in z_out z_stop i (-1) (some zv) = -1 := by
            rw [stepPos]
            simp [hs, hstop, hexit]
          exact hassemble _ _ (-1) (step_inpos_hold m zv hstP hstop' hexit') hSP
            (by rw [hst]; rfl) h1 h2 h3 (by rw [hst]) (Or.inr (Or.inr rfl)) rfl

/-! ### C4: vectorized signal derivation vs the state machine -/

/-- C4 counterexample: on the z-score path `[0, -2.1, 1, 1.9, 2.1]` with
thresholds `(2, 0.5, 3.5)` the vectorized derivation flips directly from the
long position to a short position on the upward crossing at index 4 (without
an intervening neutral bar), while the state machine holds the long position:
the two position sequences differ. -/
theorem vectorized_flip_counterexample :
    generateSignalsVectorized [some 0, some (-21/10), some 1, some (19/10), some (21/10)]
        2 (1/2) (7/2) = [0, 1, 1, 1, -1] ∧
    (runInMemory 2 (1/2) (7/2)
        (mkTicks [some 0, some (-21/10), some 1, some (19/10), some (21/10)])).map
      (fun s => posOfState s.new_state) = [0, 1, 1, 1, 1] ∧
    generateSignalsVectorized [some 0, some (-21/10), some 1, some (19/10), some (21/10)]
        2 (1/2) (7/2) ≠
      (runInMemory 2 (1/2) (7/2)
          (mkTicks [some 0, some (-21/10), some 1, some (19/10), some (21/10)])).map
        (fun s => posOfState s.new_state) := by
  have habs1 : |(19/10 : ℚ)| = 19/10 := abs_of_nonneg (by norm_num)
  have habs2 : |(21/10 : ℚ)| = 21/10 := abs_of_nonneg (by norm_num)
  have habs3 : |(1 : ℚ)| = 1 := abs_of_nonneg (by norm_num)
  have habs4 : |(-21/10 : ℚ)| = 21/10 := by
    rw [abs_of_nonpos (by norm_num)]
    norm_num
  have ha : generateSignalsVectorized
      [some 0, some (-21/10), some 1, some (19/10), some (21/10)] 2 (1/2) (7/2) =
      [0, 1, 1, 1, -1] := by
    norm_num [generateSignalsVectorized, forwardFill, stepPos, vecSignal,
      habs1, habs2, habs3, habs4]
  have hb : (runInMemory 2 (1/2) (7/2)
      (mkTicks [some 0, some (-21/10), some 1, some (19/10), some (21/10)])).map
      (fun s => posOfState s.new_state) = [0, 1, 1, 1, 1] := by
    norm_num [runInMemory, runMachine, processTick, tickBranch, isCrossing, mkTicks,
      TradingStateMachine.init, posOfState, habs1, habs2, habs3, habs4]
  refine ⟨ha, hb, ?_⟩
  intro h
  rw [h, hb] at ha
  exact absurd ha (by simp)

/-- C4 amended: under the conditions in which the two derivations agree —
every z-score defined and no entry crossing marked on a bar whose previous
position is open — the vectorized forward-fill equals the state machine's
position-state sequence bar by bar, and in particular never flips directly
between long and short.  Without the no-reentry hypothesis the vectorized
derivation can flip directly (see the counterexample), because the loop
applies an entry signal even while a position is open. -/
theorem vectorized_matches_state_machine (z_in z_out z_stop : ℚ) (zs : List (Option ℚ))
    (h0 : 0 ≤ z_in)
    (hdef : ∀ o ∈ zs, o.isSome = true)
    (hnore : ∀ i, 1 ≤ i → i < zs.length →
      (generateSignalsVectorized zs z_in z_out z_stop).getD (i - 1) 0 ≠ 0 →
      vecSignal zs z_in i = 0) :
    generateSignalsVectorized zs z_in z_out z_stop =
      (runInMemory z_in z_out z_stop (mkTicks zs)).map (fun s => posOfState s.new_state) ∧
    (∀ i, 1 ≤ i → i < zs.length →
      ¬((generateSignalsVectorized zs z_in z_out z_stop).getD (i - 1) 0 = 1 ∧
        (generateSignalsVectorized zs z_in z_out z_stop).getD i 0 = -1) ∧
      ¬((generateSignalsVectorized zs z_in z_out z_stop).getD (i - 1) 0 = -1 ∧
        (generateSignalsVectorized zs z_in z_out z_stop).getD i 0 = 1)) := by
  constructor
  · exact ff_matches_machine z_in z_out z_stop zs h0 hdef hnore zs 0 0
      (TradingStateMachine.init z_in z_out z_stop) (List.drop_zero zs) rfl rfl rfl rfl
      (Or.inl rfl) (fun _ => ⟨rfl, rfl⟩) (fun h => absurd rfl h)
  · intro i h1i hilt
    have hchar := forwardFill_getD zs z_in z_out z_stop zs 0 0 i hilt
    have hine : i ≠ 0 := Nat.one_le_iff_ne_zero.mp h1i
    constructor
    · rintro ⟨hprev, hcur⟩
      have hs := hnore i h1i hilt (by rw [hprev]; decide)
      rw [generateSignalsVectorized] at hprev hcur
      rw [hchar, if_neg hine, hprev, Nat.zero_add] at hcur
      cases hz : zs.getD i none with
      | none =>
        rw [hz] at hcur
        simp [stepPos] at hcur
      | some zv =>
        rw [hz] at hcur
        by_cases hc : (|zv| < z_out ∨ |zv| > z_stop)
        · simp [stepPos, hs, hc] at hcur
        · simp [stepPos, hs, hc] at hcur
    · rintro ⟨hprev, hcur⟩
      have hs := hnore i h1i hilt (by rw [hprev]; decide)
      rw [generateSignalsVectorized] at hprev hcur
      rw [hchar, if_neg hine, hprev, Nat.zero_add] at hcur
      cases hz : zs.getD i none with
      | none =>
        rw [hz] at hcur
        simp [stepPos] at hcur
      | some zv =>
        rw [hz] at hcur
        by_cases hc : (|zv| < z_out ∨ |zv| > z_stop)
        · simp [stepPos, hs, hc] at hcur
        · simp [stepPos, hs, hc] at hcur

/-- C4 witness: on the fully defined path `[1, 1.9, 2.1, 1, 0.25]` no entry
crossing fires while a position is open, and the vectorized positions equal
the state machine's position states. -/
theorem vectorized_matches_state_machine_witness :
    generateSignalsVectorized [some 1, some (19/10), some (21/10), some 1, some (1/4)]
        2 (1/2) (7/2) =
      (runInMemory 2 (1/2) (7/2)
          (mkTicks [some 1, some (19/10), some (21/10), some 1, some (1/4)])).map
        (fun s => posOfState s.new_state) :=
  (vectorized_matches_state_machine 2 (1/2) (7/2)
    [some 1, some (19/10), some (21/10), some 1, some (1/4)]
    (by norm_num) (by decide)
    (by
      intro i h1 h2
      simp only [List.length_cons, List.length_nil] at h2
      interval_cases i
      · intro h3
        exact absurd (by norm_num [generateSignalsVectorized, forwardFill, stepPos, vecSignal]) h3
      · intro h3
        exact absurd (by norm_num [generateSignalsVectorized, forwardFill, stepPos, vecSignal]) h3
      · intro _
        norm_num [vecSignal]
      · intro _
        norm_num [vecSignal])).1

end PairsTrading
